import Mathlib

/-!
Verification of the HawkAI signal-correlation and reachability core.

This file shallowly embeds the grouping/scoring engine
(`groupFindings` and helpers, from the findings-grouping module) and the
reachability engine (`propagateConfidence`, `detectRiskyPaths` from
`src/core/reachability.ts`, plus `applyBoosts`/`applyDemotions`/... from
`src/core/scoring.ts`).

Numeric values (confidences, scores, weights) are embedded as exact
rational numbers.  Because Mathlib's `Rat` normalises through `Nat.gcd`
(which the kernel cannot reduce), we use an unnormalised fraction type
`Q` over `Int` with cross-multiplication comparisons; all denominators
produced by the embedded code are positive.  Bridging lemmas relate the
`Q` operations to `ℚ`.

JavaScript strings are embedded as `String`; the case-insensitive regex
tests of the source (which are alternations of literal substrings, plus
two genuine regexes `open\(.*['"]r` and `open\(.*['"]w`) are embedded as
substring searches over `List Char` by structural recursion, so they are
kernel-computable.
-/

/-! ### Exact fraction arithmetic (kernel-computable stand-in for ℚ) -/

structure Q where
  num : Int
  den : Int
deriving DecidableEq, Repr

def qof (n d : Int) : Q := ⟨n, d⟩

def qadd (a b : Q) : Q := ⟨a.num * b.den + b.num * a.den, a.den * b.den⟩

def qmul (a b : Q) : Q := ⟨a.num * b.num, a.den * b.den⟩

def qdiv (a b : Q) : Q := ⟨a.num * b.den, a.den * b.num⟩

/-- `a ≤ b` by cross multiplication (valid when both denominators are positive). -/
def qle (a b : Q) : Bool := decide (a.num * b.den ≤ b.num * a.den)

/-- `a < b` by cross multiplication (valid when both denominators are positive). -/
def qlt (a b : Q) : Bool := decide (a.num * b.den < b.num * a.den)

/-- Value equality of fractions (`1/2 = 2/4`), as opposed to the structural
equality of `Q`. -/
def qeq (a b : Q) : Bool := decide (a.num * b.den = b.num * a.den)

def qpow (a : Q) : Nat → Q
  | 0 => qof 1 1
  | n + 1 => qmul (qpow a n) a

/-- JavaScript `Math.max`. -/
def qmax (a b : Q) : Q := if qle a b then b else a

/-- JavaScript `Math.min`. -/
def qmin (a b : Q) : Q := if qle a b then a else b

/-- `Math.max(0, Math.min(1, x))`, the clamp to [0,1] used throughout. -/
def clamp01 (x : Q) : Q := qmax (qof 0 1) (qmin (qof 1 1) x)

/-- Interpretation of a fraction as a rational number. -/
def Q.toRat (a : Q) : ℚ := (a.num : ℚ) / (a.den : ℚ)

theorem qeq_iff_toRat (a b : Q) (ha : 0 < a.den) (hb : 0 < b.den) :
    qeq a b = true ↔ a.toRat = b.toRat := by
  have ha' : (a.den : ℚ) ≠ 0 := by exact_mod_cast ha.ne'
  have hb' : (b.den : ℚ) ≠ 0 := by exact_mod_cast hb.ne'
  rw [qeq, decide_eq_true_eq, Q.toRat, Q.toRat, div_eq_div_iff ha' hb']
  constructor
  · intro h; exact_mod_cast congrArg (fun z : ℤ => (z : ℚ)) h
  · intro h; exact_mod_cast h

theorem qle_iff_toRat (a b : Q) (ha : 0 < a.den) (hb : 0 < b.den) :
    qle a b = true ↔ a.toRat ≤ b.toRat := by
  have ha' : (0 : ℚ) < (a.den : ℚ) := by exact_mod_cast ha
  have hb' : (0 : ℚ) < (b.den : ℚ) := by exact_mod_cast hb
  rw [qle, decide_eq_true_eq, Q.toRat, Q.toRat, div_le_div_iff₀ ha' hb']
  constructor
  · intro h; exact_mod_cast h
  · intro h; exact_mod_cast h

theorem qmul_toRat (a b : Q) : (qmul a b).toRat = a.toRat * b.toRat := by
  simp only [qmul, Q.toRat]
  push_cast
  rw [div_mul_div_comm]

theorem qadd_toRat (a b : Q) (ha : a.den ≠ 0) (hb : b.den ≠ 0) :
    (qadd a b).toRat = a.toRat + b.toRat := by
  have ha' : (a.den : ℚ) ≠ 0 := by exact_mod_cast ha
  have hb' : (b.den : ℚ) ≠ 0 := by exact_mod_cast hb
  simp only [qadd, Q.toRat]
  push_cast
  field_simp

/-! ### Kernel-computable string utilities

JavaScript `toLowerCase` and the (case-insensitive) regular-expression
tests of the source are embedded over `List Char` by structural
recursion.  All regexes in the reachability module are alternations of
literal substrings except `open\(.*['"]r` and `open\(.*['"]w`, which get
a dedicated matcher (`.` in a JS regex matches anything except a line
terminator). -/

/-- ASCII lower-casing of one character (the source strings are ASCII). -/
def lcChar (c : Char) : Char :=
  if 65 ≤ c.toNat ∧ c.toNat ≤ 90 then Char.ofNat (c.toNat + 32) else c

/-- JavaScript `s.toLowerCase()` over the characters of `s`. -/
def lcStr (s : String) : List Char := s.data.map lcChar

/-- `p` is an initial segment of `l`. -/
def chHasInit : List Char → List Char → Bool
  | _, [] => true
  | [], _ :: _ => false
  | a :: l, b :: p => a == b && chHasInit l p

/-- `p` occurs as a contiguous substring of `l` (JS `String.includes`). -/
def chHasSub : List Char → List Char → Bool
  | [], p => p.isEmpty
  | a :: t, p => chHasInit (a :: t) p || chHasSub t p

/-- The lower-cased haystack contains the pattern. -/
def strHas (hay : List Char) (pat : String) : Bool := chHasSub hay pat.data

/-- The haystack matches at least one of the literal alternatives
(one JS `/alt1|alt2|.../i.test(hay)` on an already lower-cased haystack). -/
def anyPat (hay : List Char) (pats : List String) : Bool :=
  pats.any (fun p => strHas hay p)

/-- After an occurrence of `open(`: scan for a quote character immediately
followed by `fin`, with no line terminator in between (the `.*['"]fin`
part of the JS regexes `open\(.*['"]r` / `open\(.*['"]w`). -/
def chQuoteThen (fin : Char) : List Char → Bool
  | [] => false
  | c :: t =>
    if c = '\n' ∨ c = '\r' then false
    else ((c = '\'' ∨ c = '"') ∧ t.head? = some fin) || chQuoteThen fin t

/-- The JS regex `open\(.*['"]fin` tested against `l`. -/
def chOpenQuote (fin : Char) : List Char → Bool
  | [] => false
  | a :: t =>
    (chHasInit (a :: t) "open(".data && chQuoteThen fin (t.drop 4)) || chOpenQuote fin t

/-- Decimal rendering of a `Nat` (JS template-literal interpolation of a
number), by structural recursion on a fuel bound. -/
def natToStrAux : Nat → Nat → List Char
  | 0, _ => []
  | fuel + 1, n =>
    if n < 10 then [Char.ofNat (48 + n)]
    else natToStrAux fuel (n / 10) ++ [Char.ofNat (48 + n % 10)]

def natToStr (n : Nat) : String := ⟨natToStrAux (n + 1) n⟩

/-! ### Data model (spec §3 / `src/types.ts` as used by the engine) -/

/-- `Severity` from the data model: `low | moderate | high | critical`. -/
inductive Severity where
  | low | moderate | high | critical
deriving DecidableEq, Repr

/-- `severityToNumber` from the grouping module. -/
def severityToNumber : Severity → Nat
  | .low => 1
  | .moderate => 2
  | .high => 3
  | .critical => 4

/-- The `levels` array of `boostSeverity`. -/
def sevLevels : List Severity := [.low, .moderate, .high, .critical]

/-- `boostSeverity` from the grouping module: raise the severity by
`boost` levels, saturating at `critical`. -/
def boostSeverity (severity : Severity) (boost : Nat) : Severity :=
  if boost == 0 then severity
  else
    let current := sevLevels.indexOf severity
    let boosted := min (current + boost) (sevLevels.length - 1)
    sevLevels.getD boosted .low

/-- The `mapped > current ? mapped : current` severity maximum used both in
the usage-group construction and in the score phase of `groupFindings`. -/
def pickMapped (mapped current : Severity) : Severity :=
  if severityToNumber mapped > severityToNumber current then mapped else current

/-- Signal role from the taxonomy: `usage`, `hint` or `metadata`. -/
inductive SignalRole where
  | usage | hint | metadata
deriving DecidableEq, Repr

/-- One raw pattern match (spec §3, `Finding`).  `confidence ∈ [0,1]`. -/
structure Finding where
  id : String
  ruleId : String
  title : String := ""
  severity : Severity
  category : String := ""
  owasp : List String := []
  file : String
  line : Option Nat := none
  evidence : String := ""
  remediation : String := ""
  confidence : Q
deriving DecidableEq, Repr

/-- A contributing signal recorded on a group
(`FindingGroup.contributingSignals` entries). -/
structure Signal where
  ruleId : String
  weight : Q
  confidence : Q
  role : SignalRole
deriving DecidableEq, Repr

/-- A correlated evidence cluster (spec §3, `FindingGroup`). -/
structure FindingGroup where
  id : String
  primaryFinding : Finding
  relatedFindings : List Finding
  file : String
  severity : Severity
  category : String
  riskBoost : Nat
  compositeScore : Option Q := none
  contributingSignals : Option (List Signal) := none
deriving DecidableEq, Repr

/-! ### Scoring configuration (`src/core/scoring.ts`) -/

structure ScoringWeights where
  usage : Q
  hint : Q
  metadata : Q
deriving DecidableEq, Repr

structure ScoringThresholds where
  critical : Q
  high : Q
  moderate : Q
  minGroup : Q
deriving DecidableEq, Repr

structure ScoringBoosts where
  usagePlusHint : Q
  usagePlusMetadata : Q
deriving DecidableEq, Repr

structure ScoringDemotions where
  testOrExamplePath : Q
  loopWithoutInvoke : Q
  mockLikePath : Q
deriving DecidableEq, Repr

structure ScoringCaps where
  perFileFindings : Nat
  perGroupRelated : Nat
deriving DecidableEq, Repr

structure ScoringConfig where
  weights : ScoringWeights
  thresholds : ScoringThresholds
  boosts : ScoringBoosts
  demotions : ScoringDemotions
  caps : ScoringCaps
deriving DecidableEq, Repr

/-- `DEFAULT_CONFIG` from `scoring.ts`. -/
def DEFAULT_CONFIG : ScoringConfig where
  weights := { usage := qof 75 100, hint := qof 45 100, metadata := qof 3 10 }
  thresholds :=
    { critical := qof 9 10, high := qof 7 10, moderate := qof 5 10, minGroup := qof 35 100 }
  boosts := { usagePlusHint := qof 115 100, usagePlusMetadata := qof 105 100 }
  demotions :=
    { testOrExamplePath := qof 85 100, loopWithoutInvoke := qof 8 10, mockLikePath := qof 9 10 }
  caps := { perFileFindings := 200, perGroupRelated := 6 }

/-- `getScoringConfig()`: the module-level `CURRENT` configuration, which a
scan with default settings leaves at `DEFAULT_CONFIG`. -/
def getScoringConfig : ScoringConfig := DEFAULT_CONFIG

/-- `baseWeightForRole` from `scoring.ts`. -/
def baseWeightForRole (role : SignalRole) : Q :=
  match role with
  | .usage => getScoringConfig.weights.usage
  | .hint => getScoringConfig.weights.hint
  | .metadata => getScoringConfig.weights.metadata

/-- `scoreToSeverity` from `scoring.ts`. -/
def scoreToSeverity (score : Q) : Severity :=
  let t := getScoringConfig.thresholds
  if qle t.critical score then .critical
  else if qle t.high score then .high
  else if qle t.moderate score then .moderate
  else .low

/-- `applyBoosts` from `scoring.ts`. -/
def applyBoosts (score : Q) (usageCount hintCount metadataCount : Nat) : Q :=
  let b := getScoringConfig.boosts
  let s := score
  let s := if usageCount ≥ 1 ∧ hintCount ≥ 1 then qmul s b.usagePlusHint else s
  if usageCount ≥ 1 ∧ metadataCount ≥ 1 then qmul s b.usagePlusMetadata else s

/-- `applyDemotions` from `scoring.ts`. -/
def applyDemotions (score : Q) (isTestOrExamplePath loopOnlyWithoutInvoke isMockLikePath : Bool) :
    Q :=
  let d := getScoringConfig.demotions
  let s := score
  let s := if isTestOrExamplePath then qmul s d.testOrExamplePath else s
  let s := if loopOnlyWithoutInvoke then qmul s d.loopWithoutInvoke else s
  if isMockLikePath then qmul s d.mockLikePath else s

/-! ### Signal taxonomy (`RULE_RELATIONSHIPS` from the grouping module) -/

structure RuleRel where
  type : SignalRole
  parentRules : List String := []
  childRules : List String := []
deriving DecidableEq, Repr

/-- The static `RULE_RELATIONSHIPS` table, entry for entry.  An absent
optional field of the source record is embedded as `[]` (the source only
reads the fields through `?.includes` and emptiness-tolerant loops). -/
def RULE_RELATIONSHIPS : List (String × RuleRel) := [
  ("AI-FP-OPENAI-IMPORT", { type := .hint, parentRules := ["AI-FP-OPENAI-CLIENT", "AI-FP-CHAT-COMPLETION", "AI-FP-OPENAI-ENDPOINT", "AI-FP-OPENAI-FUNCTION-CALLING"] }),
  ("AI-FP-OPENAI-CLIENT", { type := .usage, childRules := ["AI-FP-OPENAI-IMPORT"] }),
  ("AI-FP-CHAT-COMPLETION", { type := .usage, childRules := ["AI-FP-OPENAI-IMPORT", "AI-FP-OPENAI-CLIENT", "AI-FP-GPT-MODEL", "AI-FP-GPT-MODEL-EXPANDED"] }),
  ("AI-FP-GPT-MODEL", { type := .hint, parentRules := ["AI-FP-CHAT-COMPLETION"] }),
  ("AI-FP-GPT-MODEL-EXPANDED", { type := .hint, parentRules := ["AI-FP-CHAT-COMPLETION"] }),
  ("AI-FP-OPENAI-ENDPOINT", { type := .usage, childRules := ["AI-FP-OPENAI-IMPORT"] }),
  ("AI-FP-OPENAI-FUNCTION-CALLING", { type := .usage, childRules := ["AI-FP-OPENAI-IMPORT", "AI-FP-OPENAI-CLIENT"] }),
  ("AI-FP-ANTHROPIC-IMPORT", { type := .hint, parentRules := ["AI-FP-ANTHROPIC-ENDPOINT"] }),
  ("AI-FP-ANTHROPIC-ENDPOINT", { type := .usage, childRules := ["AI-FP-ANTHROPIC-IMPORT", "AI-FP-CLAUDE-MODEL"] }),
  ("AI-FP-CLAUDE-MODEL", { type := .hint, parentRules := ["AI-FP-ANTHROPIC-ENDPOINT"] }),
  ("AI-FP-GOOGLE-GEMINI-IMPORT", { type := .hint, parentRules := ["AI-FP-GOOGLE-ENDPOINT"] }),
  ("AI-FP-GEMINI-MODEL", { type := .hint, parentRules := ["AI-FP-GOOGLE-ENDPOINT"] }),
  ("AI-FP-GOOGLE-ENDPOINT", { type := .usage, childRules := ["AI-FP-GOOGLE-GEMINI-IMPORT", "AI-FP-GEMINI-MODEL"] }),
  ("AI-FP-AZURE-OPENAI-IMPORT", { type := .hint }),
  ("AI-FP-AWS-BEDROCK-IMPORT", { type := .hint, parentRules := ["AI-FP-AWS-BEDROCK-ENDPOINT"] }),
  ("AI-FP-AWS-BEDROCK-ENDPOINT", { type := .usage, childRules := ["AI-FP-AWS-BEDROCK-IMPORT"] }),
  ("AI-FP-MISTRAL-IMPORT", { type := .hint }),
  ("AI-FP-MISTRAL-MODEL", { type := .hint }),
  ("AI-FP-COHERE-IMPORT", { type := .hint }),
  ("AI-FP-GROQ-IMPORT", { type := .hint }),
  ("AI-FP-LM-STUDIO-IMPORT", { type := .hint }),
  ("AI-FP-OLLAMA-IMPORT", { type := .hint }),
  ("AI-FP-VLLM-IMPORT", { type := .hint }),
  ("AI-FP-LLAMA-CPP-IMPORT", { type := .hint }),
  ("AI-FP-LANGCHAIN-IMPORT", { type := .hint, parentRules := ["AI-FP-LCEL-PATTERN"] }),
  ("AI-FP-LCEL-PATTERN", { type := .usage, childRules := ["AI-FP-LANGCHAIN-IMPORT"] }),
  ("AI-FP-LANGGRAPH-IMPORT", { type := .hint, parentRules := ["AG-LANGGRAPH-STATEGRAPH", "AG-LANGGRAPH-INVOKE", "AG-LANGGRAPH-STREAM"] }),
  ("AI-FP-AUTOGEN-IMPORT", { type := .hint, parentRules := ["AG-A2A-EXECUTOR", "AG-A2A-MESSAGING"] }),
  ("AI-FP-CREWAI-IMPORT", { type := .hint, parentRules := ["AG-A2A-EXECUTOR", "AG-A2A-MESSAGING"] }),
  ("AI-FP-SEMANTIC-KERNEL-IMPORT", { type := .hint }),
  ("AI-FP-LLAMAINDEX-IMPORT", { type := .hint }),
  ("AI-FP-DSPY-IMPORT", { type := .hint }),
  ("AI-FP-HAYSTACK-IMPORT", { type := .hint }),
  ("AI-MCP-IMPORT", { type := .hint, parentRules := ["AI-MCP-CLIENT", "AI-MCP-TOOLS"] }),
  ("AI-MCP-CLIENT", { type := .usage, childRules := ["AI-MCP-IMPORT"] }),
  ("AI-MCP-TOOLS", { type := .usage, childRules := ["AI-MCP-IMPORT", "AI-MCP-CLIENT"] }),
  ("AI-MCP-PROTOCOL", { type := .metadata, parentRules := ["AI-MCP-TOOLS", "AI-MCP-CLIENT"] }),
  ("AI-MCP-CONFIG", { type := .hint, parentRules := ["AI-MCP-TOOLS", "AI-MCP-CLIENT"] }),
  ("AI-MCP-ENV", { type := .hint, parentRules := ["AI-MCP-TOOLS", "AI-MCP-CLIENT"] }),
  ("AG-ROUTER-ZEROSHOT", { type := .usage }),
  ("AG-TOOL-SELECTION-CLASSIFIER", { type := .usage }),
  ("AG-LOOP-AUTOEXEC", { type := .usage }),
  ("AG-LOOP-WITH-AGENT", { type := .usage }),
  ("AG-ASYNC-AGENT-LOOP", { type := .usage }),
  ("AG-PLAN-EXEC", { type := .usage }),
  ("AG-LANGGRAPH-STATEGRAPH", { type := .usage, childRules := ["AI-FP-LANGGRAPH-IMPORT"] }),
  ("AG-LANGGRAPH-NODES", { type := .usage, childRules := ["AI-FP-LANGGRAPH-IMPORT", "AG-LANGGRAPH-STATEGRAPH"] }),
  ("AG-LANGGRAPH-EDGES", { type := .usage, childRules := ["AI-FP-LANGGRAPH-IMPORT", "AG-LANGGRAPH-STATEGRAPH"] }),
  ("AG-LANGGRAPH-CONDITIONAL-EDGES", { type := .usage, childRules := ["AI-FP-LANGGRAPH-IMPORT", "AG-LANGGRAPH-STATEGRAPH"] }),
  ("AG-LANGGRAPH-CREATE-AGENT", { type := .usage, childRules := ["AI-FP-LANGGRAPH-IMPORT"] }),
  ("AG-LANGGRAPH-COMPILE", { type := .usage, childRules := ["AI-FP-LANGGRAPH-IMPORT", "AG-LANGGRAPH-STATEGRAPH"] }),
  ("AG-LANGGRAPH-INVOKE", { type := .usage, childRules := ["AI-FP-LANGGRAPH-IMPORT", "AG-LANGGRAPH-STATEGRAPH", "AG-LANGGRAPH-COMPILE"] }),
  ("AG-LANGGRAPH-STREAM", { type := .usage, childRules := ["AI-FP-LANGGRAPH-IMPORT", "AG-LANGGRAPH-STATEGRAPH", "AG-LANGGRAPH-COMPILE"] }),
  ("AG-LANGCHAIN-INVOKE", { type := .usage, childRules := ["AI-FP-LANGCHAIN-IMPORT"] }),
  ("AG-TOOL-DECORATOR", { type := .usage }),
  ("AG-TOOL-CLASS", { type := .usage }),
  ("AG-TOOL-LIST", { type := .usage }),
  ("AG-FUNCTION-TOOL-TYPE", { type := .usage, childRules := ["AI-FP-OPENAI-FUNCTION-CALLING"] }),
  ("AG-A2A-FRAMEWORK", { type := .hint, parentRules := ["AG-A2A-EXECUTOR", "AG-A2A-MESSAGING"] }),
  ("AG-A2A-EXECUTOR", { type := .usage, childRules := ["AG-A2A-FRAMEWORK", "AI-FP-AUTOGEN-IMPORT", "AI-FP-CREWAI-IMPORT"] }),
  ("AG-A2A-MESSAGING", { type := .usage, childRules := ["AG-A2A-FRAMEWORK", "AI-FP-AUTOGEN-IMPORT", "AI-FP-CREWAI-IMPORT"] }),
  ("AG-A2A-ORCHESTRATION", { type := .hint, parentRules := ["AG-A2A-EXECUTOR", "AG-A2A-MESSAGING"] }),
  ("RAG-VECTOR-DB", { type := .hint, parentRules := ["RAG-RETRIEVAL", "RAG-CHAIN", "RAG-LANGCHAIN-VECTORSTORE"] }),
  ("RAG-EMBEDDINGS", { type := .hint, parentRules := ["RAG-RETRIEVAL", "RAG-CHAIN", "RAG-LANGCHAIN-VECTORSTORE"] }),
  ("RAG-TEXT-SPLITTER", { type := .hint, parentRules := ["RAG-RETRIEVAL", "RAG-CHAIN", "RAG-LANGCHAIN-VECTORSTORE"] }),
  ("RAG-RETRIEVAL", { type := .usage, childRules := ["RAG-VECTOR-DB", "RAG-EMBEDDINGS", "RAG-TEXT-SPLITTER"] }),
  ("RAG-CHAIN", { type := .usage, childRules := ["RAG-VECTOR-DB", "RAG-EMBEDDINGS", "RAG-TEXT-SPLITTER", "RAG-RETRIEVAL"] }),
  ("RAG-LANGCHAIN-VECTORSTORE", { type := .usage, childRules := ["RAG-VECTOR-DB", "RAG-EMBEDDINGS"] }),
  ("RAG-CONTEXT-INJECTION", { type := .usage, childRules := ["RAG-RETRIEVAL", "RAG-CHAIN"] })]

/-- Taxonomy lookup `RULE_RELATIONSHIPS[ruleId]`. -/
def ruleRel (ruleId : String) : Option RuleRel :=
  (RULE_RELATIONSHIPS.find? (fun e => e.1 == ruleId)).map (·.2)

/-- `rel?.type ?? dflt`: the role of a rule id with a default. -/
def roleOf (ruleId : String) (dflt : SignalRole) : SignalRole :=
  match ruleRel ruleId with
  | some rel => rel.type
  | none => dflt

/-! ### Grouping engine (the findings-grouping module) -/

/-- Deduplication key: `file:ruleId:line:evidence.slice(0,50)`. -/
def dedupKey (f : Finding) : String :=
  f.file ++ ":" ++ f.ruleId ++ ":" ++
    (match f.line with | some n => natToStr n | none => "null") ++ ":" ++
    ⟨f.evidence.data.take 50⟩

def dedupGo (seen : List String) : List Finding → List Finding
  | [] => []
  | f :: rest =>
    let key := dedupKey f
    if seen.contains key then dedupGo seen rest
    else f :: dedupGo (seen ++ [key]) rest

/-- `deduplicateFindings`: keep the first occurrence of each key. -/
def deduplicateFindings (findings : List Finding) : List Finding := dedupGo [] findings

/-- First-occurrence list of distinct strings (the key sequence of a JS
`Map` built by insertion). -/
def dsGo (seen : List String) : List String → List String
  | [] => []
  | s :: rest => if seen.contains s then dsGo seen rest else s :: dsGo (seen ++ [s]) rest

def distinctStrs (l : List String) : List String := dsGo [] l

/-- `isTestOrExamplePath` from the grouping module. -/
def isTestOrExamplePath (path : String) : Bool :=
  anyPat (lcStr path) ["/test/", "/tests/", "__tests__", "/example/", "/examples/"]

/-- `isMockLikePath` from the grouping module. -/
def isMockLikePath (p : String) : Bool :=
  anyPat (lcStr p) ["/__mocks__/", "/mocks/", "/mock/", "/stubs/", "/fixtures/", "/samples/"]

def loopRuleIds : List String :=
  ["AG-LOOP-AUTOEXEC", "AG-LOOP-WITH-AGENT", "AG-ASYNC-AGENT-LOOP"]

def corroboratingUsage : List String :=
  ["AG-LANGGRAPH-INVOKE", "AG-LANGGRAPH-STREAM", "AG-LANGCHAIN-INVOKE"]

/-- `isLoopOnlyGroup`: the group's rule ids (primary plus contributing
signals) contain a bare control-loop rule but no corroborating invoke/stream
usage rule. -/
def isLoopOnlyGroup (primaryRuleId : String) (signals : List Signal) : Bool :=
  let allRuleIds := primaryRuleId :: signals.map (·.ruleId)
  allRuleIds.any (fun i => loopRuleIds.contains i) &&
    !(allRuleIds.any (fun i => corroboratingUsage.contains i))

/-- `primaryCandidateScore`: `0.6×severityRank + 0.4×confidence` plus a
`0.15` bonus for explicitly preferred invoke/stream/endpoint rules. -/
def primaryCandidateScore (f : Finding) : Q :=
  let sev : Int := severityToNumber f.severity
  let base := qadd (qmul (qof sev 1) (qof 6 10)) (qmul f.confidence (qof 4 10))
  let prefer :=
    if f.ruleId == "AG-LANGGRAPH-INVOKE" || f.ruleId == "AG-LANGGRAPH-STREAM" ||
        f.ruleId == "AI-FP-OPENAI-ENDPOINT" || f.ruleId == "AG-LANGCHAIN-INVOKE"
    then qof 15 100 else qof 0 1
  qadd base prefer

/-- `reduce` choosing the candidate with the strictly larger
`primaryCandidateScore` (first maximal element wins). -/
def choosePrimary (hd : Finding) (tl : List Finding) : Finding :=
  tl.foldl
    (fun best cand =>
      if qlt (primaryCandidateScore best) (primaryCandidateScore cand) then cand else best)
    hd

/-- Keep the first finding for each id (the `relatedSet` deduplication). -/
def dedupById (seen : List String) : List Finding → List Finding
  | [] => []
  | f :: rest =>
    if seen.contains f.id then dedupById seen rest
    else f :: dedupById (seen ++ [f.id]) rest

/-- `getRelatedCap()` (the per-group related-findings cap, default 6). -/
def getRelatedCap : Nat := getScoringConfig.caps.perGroupRelated

/-- Stable insertion into an ascending-by-key list (insert after equals),
matching a stable JS `sort((a,b) => key(a) - key(b))`. -/
def insAscI {α : Type} (key : α → Int) (x : α) : List α → List α
  | [] => [x]
  | y :: t => if key y ≤ key x then y :: insAscI key x t else x :: y :: t

def sortAscI {α : Type} (key : α → Int) (l : List α) : List α :=
  l.foldl (fun acc x => insAscI key x acc) []

/-- Stable insertion into a descending-by-key list (insert after greater or
equal), matching a stable JS `sort((a,b) => key(b) - key(a))`. -/
def insDescQ {α : Type} (key : α → Q) (x : α) : List α → List α
  | [] => [x]
  | y :: t => if qle (key x) (key y) then y :: insDescQ key x t else x :: y :: t

def sortDescQ {α : Type} (key : α → Q) (l : List α) : List α :=
  l.foldl (fun acc x => insDescQ key x acc) []

/-- A contributing-signal record for a finding in a given role. -/
def signalFor (f : Finding) (role : SignalRole) : Signal :=
  ⟨f.ruleId, baseWeightForRole role, f.confidence, role⟩

/-- `1 / (1 + idx × 0.35)`: diminishing-returns factor of the `idx`-th
related signal (0-based). -/
def diminishFactor (idx : Nat) : Q :=
  qdiv (qof 1 1) (qadd (qof 1 1) (qmul (qof idx 1) (qof 35 100)))

/-- Starting from the primary's contribution, add
`weight(role)×confidence×diminish(idx)` for each related finding (role
defaulting to `hint` for unknown rule ids). -/
def scoreWithRelated (start : Q) (related : List Finding) : Q :=
  related.enum.foldl
    (fun s p =>
      qadd s (qmul (qmul (baseWeightForRole (roleOf p.2.ruleId .hint)) p.2.confidence)
        (diminishFactor p.1)))
    start

/-- How many of primary-plus-related have role `r` (related roles default
to `hint` for unknown rule ids). -/
def roleCount (primaryRole : SignalRole) (related : List Finding) (r : SignalRole) : Nat :=
  (if primaryRole == r then 1 else 0) +
    (related.filter (fun f => roleOf f.ruleId .hint == r)).length

/-- Does this finding's rule have taxonomy role `r` (`rel?.type === r`)? -/
def roleIs (f : Finding) (r : SignalRole) : Bool :=
  match ruleRel f.ruleId with
  | some rel => rel.type == r
  | none => false

/-- One usage-rule group of `groupFileFindings` (the body of the
`for (const [ruleId, ruleUsageFindings] of usageByRule)` loop), returning
the group together with the ids it marks as processed.  `none` embeds the
`length === 0` continue. -/
def usageGroupFor (file ruleId : String)
    (bucket hintFindings metadataFindings : List Finding) :
    Option (FindingGroup × List String) :=
  match bucket with
  | [] => none
  | hd :: tl =>
    let primary := choosePrimary hd tl
    let rel := ruleRel ruleId
    let pulledHints :=
      ((rel.map (·.childRules)).getD []).flatMap
        (fun hintRuleId => hintFindings.filter (fun f => f.ruleId == hintRuleId))
    let pulledMetas :=
      metadataFindings.filter (fun m =>
        match ruleRel m.ruleId with
        | some mr => mr.parentRules.contains ruleId
        | none => false)
    let related := dedupById [] (pulledHints ++ pulledMetas)
    let riskBoost := if related.length > 0 then 1 else 0
    let severity := boostSeverity primary.severity riskBoost
    let otherUsages :=
      (sortAscI
        (fun u => ((u.line.getD 0 : Int) - (primary.line.getD 0 : Int)).natAbs)
        (bucket.filter (fun u => u.id != primary.id))).take 3
    let relatedLimited := (related ++ otherUsages).take getRelatedCap
    let primaryRole := roleOf primary.ruleId .usage
    let contributing :=
      signalFor primary primaryRole ::
        relatedLimited.map (fun f => signalFor f (roleOf f.ruleId .hint))
    let score0 :=
      scoreWithRelated (qmul (baseWeightForRole primaryRole) primary.confidence) relatedLimited
    let score1 := applyBoosts score0 (roleCount primaryRole relatedLimited .usage)
      (roleCount primaryRole relatedLimited .hint) (roleCount primaryRole relatedLimited .metadata)
    let score2 := applyDemotions score1 (isTestOrExamplePath primary.file)
      (isLoopOnlyGroup primary.ruleId contributing) (isMockLikePath primary.file)
    let mapped := scoreToSeverity (clamp01 score2)
    let finalSeverity := pickMapped mapped severity
    some ({ id := "group-" ++ file ++ "-" ++ ruleId,
            primaryFinding := primary,
            relatedFindings := relatedLimited,
            file := primary.file,
            severity := finalSeverity,
            category := primary.category,
            riskBoost := riskBoost,
            compositeScore := some (clamp01 score2),
            contributingSignals := some contributing },
          related.map (·.id) ++ bucket.map (·.id))

/-- The usage-rule grouping phase of `groupFileFindings`: one group per
distinct usage rule id in the file, plus the set of processed finding ids
(as a list). -/
def usagePhase (file : String) (findings : List Finding) :
    List FindingGroup × List String :=
  let usageFindings := findings.filter (fun f => roleIs f .usage)
  let hintFindings := findings.filter (fun f => roleIs f .hint)
  let metadataFindings := findings.filter (fun f => roleIs f .metadata)
  (distinctStrs (usageFindings.map (·.ruleId))).foldl
    (fun acc r =>
      match usageGroupFor file r (usageFindings.filter (fun f => f.ruleId == r))
          hintFindings metadataFindings with
      | none => acc
      | some (g, ids) => (acc.1 ++ [g], acc.2 ++ ids))
    ([], [])

/-- Standalone-hint phase: a group per unprocessed hint finding unless its
`weight(hint)×confidence` falls strictly below `thresholds.minGroup`. -/
def hintPhase : List Finding → List String → List FindingGroup × List String
  | [], processed => ([], processed)
  | h :: rest, processed =>
    if processed.contains h.id then hintPhase rest processed
    else
      let comp := qmul (baseWeightForRole .hint) h.confidence
      if qlt comp getScoringConfig.thresholds.minGroup then
        hintPhase rest (processed ++ [h.id])
      else
        let g : FindingGroup :=
          { id := "group-" ++ h.id, primaryFinding := h, relatedFindings := [],
            file := h.file, severity := h.severity, category := h.category, riskBoost := 0,
            compositeScore := some comp,
            contributingSignals :=
              some [⟨h.ruleId, baseWeightForRole .hint, h.confidence, .hint⟩] }
        let next := hintPhase rest (processed ++ [h.id])
        (g :: next.1, next.2)

/-- Standalone-metadata phase: a group per unprocessed metadata finding
(no score floor). -/
def metaPhase : List Finding → List String → List FindingGroup × List String
  | [], processed => ([], processed)
  | m :: rest, processed =>
    if processed.contains m.id then metaPhase rest processed
    else
      let g : FindingGroup :=
        { id := "group-" ++ m.id, primaryFinding := m, relatedFindings := [],
          file := m.file, severity := m.severity, category := m.category, riskBoost := 0 }
      let next := metaPhase rest (processed ++ [m.id])
      (g :: next.1, next.2)

/-- Remaining-findings phase: a group per finding whose rule id never got
classified or processed (unknown rule ids land here). -/
def restPhase : List Finding → List String → List FindingGroup × List String
  | [], processed => ([], processed)
  | f :: rest, processed =>
    if processed.contains f.id then restPhase rest processed
    else
      let g : FindingGroup :=
        { id := "group-" ++ f.id, primaryFinding := f, relatedFindings := [],
          file := f.file, severity := f.severity, category := f.category, riskBoost := 0 }
      let next := restPhase rest (processed ++ [f.id])
      (g :: next.1, next.2)

/-- `groupFileFindings`: usage groups, then standalone hints, then
standalone metadata, then findings with unrecognised rule ids. -/
def groupFileFindings (file : String) (findings : List Finding) : List FindingGroup :=
  let hintFindings := findings.filter (fun f => roleIs f .hint)
  let metadataFindings := findings.filter (fun f => roleIs f .metadata)
  let up := usagePhase file findings
  let hp := hintPhase hintFindings up.2
  let mp := metaPhase metadataFindings hp.2
  let rp := restPhase findings mp.2
  up.1 ++ hp.1 ++ mp.1 ++ rp.1

/-- Phase 2 of `groupFindings`: recompute the composite score and the
contributing signals of a group, raising its severity to the score-derived
severity when that is higher. -/
def scorePhase (group : FindingGroup) : FindingGroup :=
  let primaryRole := roleOf group.primaryFinding.ruleId .usage
  let relatedLimited := group.relatedFindings.take getRelatedCap
  let contributing :=
    signalFor group.primaryFinding primaryRole ::
      relatedLimited.map (fun f => signalFor f (roleOf f.ruleId .hint))
  let score0 :=
    scoreWithRelated (qmul (baseWeightForRole primaryRole) group.primaryFinding.confidence)
      relatedLimited
  let score1 := applyBoosts score0 (roleCount primaryRole relatedLimited .usage)
    (roleCount primaryRole relatedLimited .hint) (roleCount primaryRole relatedLimited .metadata)
  let score2 := applyDemotions score1 (isTestOrExamplePath group.file)
    (isLoopOnlyGroup group.primaryFinding.ruleId contributing) (isMockLikePath group.file)
  let score := clamp01 score2
  let mapped := scoreToSeverity score
  { group with
      compositeScore := some score,
      contributingSignals := some contributing,
      severity := pickMapped mapped group.severity }

/-- `groupFindings`: deduplicate, bucket by file (a JS `Map` keyed in
first-occurrence order, each bucket in input order — i.e. a filter), group
each file, then run the scoring phase over all groups. -/
def groupFindings (findings : List Finding) : List FindingGroup :=
  let deduplicated := deduplicateFindings findings
  let files := distinctStrs (deduplicated.map (·.file))
  let groups :=
    files.flatMap (fun file =>
      groupFileFindings file (deduplicated.filter (fun f => f.file == file)))
  groups.map scorePhase

/-! ### Reachability graph (`src/core/reachability.ts`) -/

inductive NodeKind where
  | code | ai | finding
deriving DecidableEq, Repr, Inhabited

inductive EdgeKind where
  | related | uses_model | uses_tool | uses_endpoint | calls | data_flow
deriving DecidableEq, Repr, Inhabited

structure GraphNode where
  id : String
  kind : NodeKind
  label : String
  file : Option String := none
  line : Option Nat := none
  severity : Option Severity := none
  confidence : Option Q := none
  category : Option String := none
  compositeScore : Option Q := none
deriving DecidableEq, Repr, Inhabited

/-- A graph edge.  The source fields `from`/`to` are embedded as
`fromId`/`toId` (`from` is a Lean keyword). -/
structure GraphEdge where
  id : String
  kind : EdgeKind
  fromId : String
  toId : String
  weight : Option Q := none
  label : Option String := none
deriving DecidableEq, Repr, Inhabited

structure GraphStats where
  nodeCount : Nat
  edgeCount : Nat
deriving DecidableEq, Repr

structure ReachabilityGraph where
  nodes : List GraphNode
  edges : List GraphEdge
  stats : GraphStats
deriving DecidableEq, Repr

/-- The `nodesById` map: built by `set` over the node list, so a later
node with the same id wins. -/
def lookupNode (g : ReachabilityGraph) (id : String) : Option GraphNode :=
  g.nodes.reverse.find? (fun n => n.id == id)

/-- The forward adjacency list of a node (edges pushed in input order). -/
def forwardEdges (g : ReachabilityGraph) (id : String) : List GraphEdge :=
  g.edges.filter (fun e => e.fromId == id)

/-- The reverse adjacency list of a node. -/
def backEdges (g : ReachabilityGraph) (id : String) : List GraphEdge :=
  g.edges.filter (fun e => e.toId == id)

/-- `node.compositeScore ?? node.confidence ?? 0.5`. -/
def nodeConfHalf (n : GraphNode) : Q := n.compositeScore.getD (n.confidence.getD (qof 1 2))

/-- `node.compositeScore ?? node.confidence ?? 0`. -/
def nodeConfZero (n : GraphNode) : Q := n.compositeScore.getD (n.confidence.getD (qof 0 1))

/-- Association-map update with JS `Map.set` semantics (overwrite the
value in place, otherwise append). -/
def awSet (m : List (String × Q)) (k : String) (v : Q) : List (String × Q) :=
  match m with
  | [] => [(k, v)]
  | (k0, v0) :: t => if k0 == k then (k0, v) :: t else (k0, v0) :: awSet t k v

/-- Association-map lookup (`Map.get`). -/
def awGet (m : List (String × Q)) (k : String) : Option Q :=
  (m.find? (fun e => e.1 == k)).map (·.2)

/-! #### Confidence propagation -/

/-- The base weight of one edge in `propagateConfidence`: geometric mean of
the endpoint confidences when both resolve (modelled with an explicit
square-root function `sqrtFn`, since `Math.sqrt` is irrational in general;
every theorem below holds for all `sqrtFn`), one endpoint's confidence when
only one resolves, the edge's prior weight or `0.5` otherwise — then the
edge-kind multiplier and the clamp at `1.0`. -/
def baseEdgeWeight (sqrtFn : Q → Q) (g : ReachabilityGraph) (e : GraphEdge) : Q :=
  let fromNode := lookupNode g e.fromId
  let toNode := lookupNode g e.toId
  let baseWeight :=
    match fromNode, toNode with
    | some fn, some tn => sqrtFn (qmul (nodeConfHalf fn) (nodeConfHalf tn))
    | some fn, none => nodeConfHalf fn
    | none, some tn => nodeConfHalf tn
    | none, none => e.weight.getD (qof 1 2)
  let kindBoost :=
    match e.kind with
    | .uses_model | .uses_tool => qof 115 100
    | .uses_endpoint => qof 12 10
    | _ => qof 1 1
  qmin (qof 1 1) (qmul baseWeight kindBoost)

/-- The `edgeWeights` map of `propagateConfidence`. -/
def edgeWeightsMap (sqrtFn : Q → Q) (g : ReachabilityGraph) : List (String × Q) :=
  g.edges.foldl (fun m e => awSet m e.id (baseEdgeWeight sqrtFn g e)) []

/-- `findPaths` of `propagateConfidence`: enter one node, then for each
outgoing edge record the decayed path confidence and recurse into
unvisited targets.  `fuel` is only a structural-recursion bound; the depth
guard `depth > 5` is the source's bound, and the fuel-stability theorem
below shows any `fuel ≥ 7 - depth` gives the same result. -/
def fpNode (g : ReachabilityGraph) (ew : String → Q) :
    Nat → String → List String → Nat → Nat → List (String × Q) → List (String × Q)
  | 0, _, _, _, _, ps => ps
  | fuel + 1, start, visited, pathLength, depth, ps =>
    if depth > 5 ∨ visited.contains start then ps
    else
      let visited' := start :: visited
      (forwardEdges g start).foldl
        (fun ps e =>
          let pathConfidence := qmul (ew e.id) (qpow (qof 85 100) pathLength)
          let current := (awGet ps e.id).getD (qof 0 1)
          let ps1 := awSet ps e.id (qmax current pathConfidence)
          if visited'.contains e.toId then ps1
          else fpNode g ew fuel e.toId visited' (pathLength + 1) (depth + 1) ps1)
        ps

/-- The seed list: nodes with confidence/composite score ≥ 0.7, sorted
descending (stable), capped at `MAX_NODES_FOR_PROPAGATION = 100`. -/
def highConfNodes (g : ReachabilityGraph) : List String :=
  ((sortDescQ nodeConfZero (g.nodes.filter (fun n => qle (qof 7 10) (nodeConfZero n)))).take
    100).map (·.id)

/-- The `pathScores` map after all seed traversals. -/
def pathScoresOf (sqrtFn : Q → Q) (fuel : Nat) (g : ReachabilityGraph) :
    List (String × Q) :=
  let ewm := edgeWeightsMap sqrtFn g
  let ew := fun id => (awGet ewm id).getD (qof 1 2)
  (highConfNodes g).foldl (fun ps nid => fpNode g ew fuel nid [] 0 0 ps) []

/-- `propagateConfidence`, with an explicit structural fuel for the DFS. -/
def propagateConfidenceFuel (sqrtFn : Q → Q) (fuel : Nat) (g : ReachabilityGraph) :
    ReachabilityGraph :=
  let ewm := edgeWeightsMap sqrtFn g
  let ps := pathScoresOf sqrtFn fuel g
  let updatedEdges := g.edges.map (fun e =>
    let baseWeight := (awGet ewm e.id).getD (e.weight.getD (qof 1 2))
    let pathScore := (awGet ps e.id).getD (qof 0 1)
    let finalWeight := qadd (qmul baseWeight (qof 6 10)) (qmul pathScore (qof 4 10))
    { e with weight := some (qmax (qof 0 1) (qmin (qof 1 1) finalWeight)) })
  { g with
      edges := updatedEdges,
      stats := { nodeCount := g.nodes.length, edgeCount := updatedEdges.length } }

/-- `propagateConfidence` from `reachability.ts`.  Fuel 7 always suffices:
`MAX_PATH_LENGTH = 5`, so traversal depths 0..5 do work, the entry at
depth 6 returns at the guard, and deeper entries never happen. -/
def propagateConfidence (sqrtFn : Q → Q) (g : ReachabilityGraph) : ReachabilityGraph :=
  propagateConfidenceFuel sqrtFn 7 g

/-! #### Risky-path detection (`detectRiskyPaths`) -/

inductive RiskLevel where
  | critical | high | moderate | low
deriving DecidableEq, Repr

structure RiskyPath where
  source : GraphNode
  transforms : List GraphNode
  sink : GraphNode
  path : List GraphNode
  confidence : Q
  riskLevel : RiskLevel
deriving DecidableEq, Repr

/-- `isSourceNode` from `detectRiskyPaths`: untrusted-input vocabulary over
the lower-cased label, file and node id, outgoing-edge targets, and the
tool-with-incoming-input rule. -/
def isSourceNode (g : ReachabilityGraph) (node : GraphNode) : Bool :=
  let label := lcStr node.label
  let file := lcStr (node.file.getD "")
  let nodeId := lcStr node.id
  if strHas nodeId "ag-streamlit-input" || strHas label "ag-streamlit-input" then true
  else
    let isToolNode :=
      anyPat nodeId ["tool", "uses_tool", "ag-tool", "ag-function"] ||
        anyPat label ["ag-tool", "ag-function"]
    let edgesFromNode := forwardEdges g node.id
    if edgesFromNode.any (fun e =>
        let target := lcStr e.toId
        anyPat target ["input", "argv", "args", "stdin", "readline", "argparse", "click",
          "dotenv", "process.env", "getenv", "readfile", "read(", "open(", "streamlit",
          "st."] ||
        (anyPat target ["request", "fetch", "http", "body", "query", "params", "headers"] &&
          !(e.kind == EdgeKind.uses_tool))) then true
    else if isToolNode && (backEdges g node.id).any (fun e =>
        match lookupNode g e.fromId with
        | some sourceNode =>
          anyPat (lcStr sourceNode.label ++ lcStr sourceNode.id)
            ["input", "argv", "args", "stdin", "request", "fetch", "http", "body", "query",
             "params", "env", "config", "readfile", "read(", "streamlit", "st."]
        | none => false) then true
    else
      let lfn := label ++ file ++ nodeId
      if anyPat lfn ["input", "argv", "args", "stdin", "readline", "request.body",
          "request.query", "request.params", "request.headers", "req.body", "req.query",
          "req.params", "req.headers"] then true
      else if anyPat lfn ["st.text_input", "st.chat_input", "st.text_area",
          "st.number_input", "st.selectbox", "st.multiselect", "st.slider",
          "st.file_uploader", "st.text", "st.write"] then true
      else if (anyPat lfn ["readfile", "read(", ".read(", "fs.read"] ||
          chOpenQuote 'r' lfn) && !(strHas lfn "write") then true
      else if anyPat lfn ["process.env", "getenv", "os.getenv", "dotenv", "config",
          "settings"] then true
      else if anyPat lfn ["argparse", "click", "sys.argv", "process.argv"] then true
      else if anyPat label ["request", "fetch", "http.", "url", "query", "body", "params"] ||
          anyPat file ["http", "api", "endpoint"] then
        edgesFromNode.any (fun e =>
          anyPat (lcStr e.toId) ["http", "request", "fetch", "api"] &&
            !(anyPat (lcStr e.toId) ["post", "put", "send", "publish"]))
      else false

/-- `isTransformNode` from `detectRiskyPaths`: LLM/agent/RAG/model
vocabulary, with tool nodes explicitly disqualified. -/
def isTransformNode (node : GraphNode) : Bool :=
  let label := lcStr node.label
  let ruleId := lcStr node.id
  if anyPat ruleId ["ag-tool", "ag-function", "tool-class", "tool-list", "tool-decorator",
      "uses_tool"] || anyPat label ["ag-tool", "ag-function"] then false
  else if anyPat (label ++ ruleId) ["chat.completions", "completions.create"] ||
      (anyPat (label ++ ruleId) ["invoke", "stream", "run"] && !(strHas ruleId "tool")) then
    true
  else if anyPat ruleId ["langgraph", "langchain", "crewai", "autogen"] ||
      (anyPat (label ++ ruleId) ["agent", "graph", "chain"] && !(strHas ruleId "tool")) then
    true
  else if anyPat (label ++ ruleId) ["rag", "retrieval", "vector", "embedding"] then true
  else if anyPat ruleId ["uses_model", "uses_endpoint", "openai", "anthropic", "model"] then
    true
  else false

/-- `isSinkNode` from `detectRiskyPaths`: filesystem/tool/network/database/
shell vocabulary over label, id and outgoing-edge targets. -/
def isSinkNode (g : ReachabilityGraph) (node : GraphNode) : Bool :=
  let label := lcStr node.label
  let ruleId := lcStr node.id
  let edgesFromNode := forwardEdges g node.id
  if edgesFromNode.any (fun e =>
      let target := lcStr e.toId
      (anyPat target ["tool", "execute", "run", "invoke", "call"] &&
        e.kind == EdgeKind.uses_tool) ||
      anyPat target ["writefile", "writetext", "open", "write", "system", "exec", "shell",
        "subprocess"] ||
      anyPat target ["fetch", "post", "put", "send", "publish", "smtp", "http"] ||
      anyPat target ["execute", "query", "commit", "insert", "update", "delete", "db",
        "database"]) then true
  else if anyPat (label ++ ruleId) ["writefile", "writetext", "os.system", "subprocess",
      "exec", "shell"] || chOpenQuote 'w' (label ++ ruleId) then true
  else if edgesFromNode.any (fun e => e.kind == EdgeKind.uses_tool) ||
      anyPat ruleId ["uses_tool", "tool", "execute", "run"] then true
  else if anyPat label ["fetch", "request.post", "request.put", "http.post", "smtp", "send",
      "publish"] then true
  else if anyPat (label ++ ruleId) ["execute", "query", "commit", "insert", "update",
      "delete", "db.", "database"] then true
  else if anyPat (label ++ ruleId) ["system", "exec", "spawn", "shell=true", "subprocess"]
    then true
  else false

/-- `findPathToSink` of `detectRiskyPaths`: enter one node, record a risky
path when the designated sink is reached with at least one transform
accumulated, otherwise follow the outgoing edges of weight ≥ 0.3.  `fuel`
is only a structural-recursion bound; the source's bound is the guard
`depth > 6`, and the fuel-stability theorem below shows any
`fuel ≥ 8 - depth` gives the same result. -/
def fsNode (g : ReachabilityGraph) :
    Nat → String → String → List String → List GraphNode → List GraphNode → Nat →
      List RiskyPath
  | 0, _, _, _, _, _, _ => []
  | fuel + 1, start, sinkId, visited, path, transforms, depth =>
    if depth > 6 ∨ visited.contains start then []
    else
      match lookupNode g start with
      | none => []
      | some currentNode =>
        let visited' := start :: visited
        let path' := path ++ [currentNode]
        let transforms' :=
          if isTransformNode currentNode then transforms ++ [currentNode] else transforms
        if start == sinkId ∧ transforms'.length > 0 then
          let pathConf := path'.foldl (fun acc n => qmul acc (nodeConfHalf n)) (qof 1 1)
          let pathConf := qmul pathConf (qpow (qof 9 10) (path'.length - 1))
          let riskLevel : RiskLevel :=
            if qle (qof 8 10) pathConf then .critical
            else if qle (qof 6 10) pathConf then .high
            else if qle (qof 4 10) pathConf then .moderate
            else .low
          [{ source := path'.headI, transforms := transforms',
             sink := path'.getLastD currentNode, path := path',
             confidence := qmax (qof 0 1) (qmin (qof 1 1) pathConf),
             riskLevel := riskLevel }]
        else
          (forwardEdges g start).foldl
            (fun acc e =>
              acc ++
                (if qle (qof 3 10) (e.weight.getD (qof 1 2)) then
                  fsNode g fuel e.toId sinkId visited' path' transforms' (depth + 1)
                else []))
            []

/-- The `uniquePaths` map update: keep the strictly-higher-confidence path
per `source→sink` key. -/
def upsertPath (m : List (String × RiskyPath)) (k : String) (p : RiskyPath) :
    List (String × RiskyPath) :=
  match m with
  | [] => [(k, p)]
  | (k0, p0) :: t =>
    if k0 == k then (if qlt p0.confidence p.confidence then (k0, p) :: t else (k0, p0) :: t)
    else (k0, p0) :: upsertPath t k p

/-- `detectRiskyPaths`, with an explicit structural fuel for the DFS. -/
def detectRiskyPathsFuel (fuel : Nat) (g : ReachabilityGraph) : List RiskyPath :=
  let sourceNodes := (sortDescQ nodeConfZero (g.nodes.filter (fun n => isSourceNode g n))).take 200
  let sinkNodes := (sortDescQ nodeConfZero (g.nodes.filter (fun n => isSinkNode g n))).take 200
  let riskyPaths :=
    sourceNodes.foldl (fun acc source =>
      sinkNodes.foldl (fun acc2 sink =>
        if source.id == sink.id then acc2
        else acc2 ++ fsNode g fuel source.id sink.id [] [] [] 0) acc) []
  let uniq :=
    (riskyPaths.foldl (fun m p => upsertPath m (p.source.id ++ "→" ++ p.sink.id) p) []).map
      (·.2)
  (sortDescQ (fun p => p.confidence) uniq).take 50

/-- `detectRiskyPaths` from `reachability.ts`.  Fuel 8 always suffices:
`MAX_PATH_LENGTH = 6`, so traversal depths 0..6 do work, the entry at
depth 7 returns at the guard, and deeper entries never happen. -/
def detectRiskyPaths (g : ReachabilityGraph) : List RiskyPath :=
  detectRiskyPathsFuel 8 g

/-! ### Inhabited instances (for `headI` in theorem statements) -/

instance : Inhabited Q := ⟨qof 0 1⟩

instance : Inhabited Severity := ⟨.low⟩

instance : Inhabited SignalRole := ⟨.usage⟩

instance : Inhabited Finding :=
  ⟨{ id := "", ruleId := "", severity := .low, file := "", confidence := qof 0 1 }⟩

instance : Inhabited FindingGroup :=
  ⟨{ id := "", primaryFinding := default, relatedFindings := [], file := "",
     severity := .low, category := "", riskBoost := 0 }⟩

instance : Inhabited RiskLevel := ⟨.low⟩

instance : Inhabited RiskyPath :=
  ⟨{ source := default, transforms := [], sink := default, path := [],
     confidence := qof 0 1, riskLevel := .low }⟩

/-! ### Concrete fixtures for the spec scenarios -/

/-- Scenario 1, hint finding: `AI-FP-OPENAI-IMPORT`, confidence 0.9, line 3. -/
def s1Import : Finding :=
  { id := "f1", ruleId := "AI-FP-OPENAI-IMPORT", severity := .low, file := "src/app.py",
    line := some 3, evidence := "import openai", confidence := qof 9 10 }

/-- Scenario 1, usage finding: `AI-FP-OPENAI-CLIENT`, confidence 0.8, line 10. -/
def s1Client : Finding :=
  { id := "f2", ruleId := "AI-FP-OPENAI-CLIENT", severity := .moderate, file := "src/app.py",
    line := some 10, evidence := "client = OpenAI()", confidence := qof 8 10 }

/-- Scenario 3 source: an HTTP-input node, confidence 0.8 (its label matches
the user-input vocabulary and nothing else). -/
def rpSource : GraphNode :=
  { id := "src|app.py|1", kind := .finding, label := "http-input", file := some "app.py",
    line := some 1, confidence := some (qof 8 10) }

/-- Scenario 3 transform: an LLM-invoke node, confidence 0.9. -/
def rpLlm : GraphNode :=
  { id := "llm|app.py|2", kind := .finding, label := "llm-invoke", file := some "app.py",
    line := some 2, confidence := some (qof 9 10) }

/-- Scenario 3 sink: a shell-exec node (`os.system`), confidence 0.7. -/
def rpSink : GraphNode :=
  { id := "snk|app.py|3", kind := .finding, label := "os.system", file := some "app.py",
    line := some 3, confidence := some (qof 7 10) }

def rpEdgeST : GraphEdge :=
  { id := "e1", kind := .data_flow, fromId := "src|app.py|1", toId := "llm|app.py|2",
    weight := some (qof 1 2) }

def rpEdgeTK : GraphEdge :=
  { id := "e2", kind := .data_flow, fromId := "llm|app.py|2", toId := "snk|app.py|3",
    weight := some (qof 1 2) }

/-- Scenario 3 graph: source → transform → sink, edge weights 0.5 ≥ 0.3. -/
def rpGraph : ReachabilityGraph :=
  { nodes := [rpSource, rpLlm, rpSink], edges := [rpEdgeST, rpEdgeTK],
    stats := { nodeCount := 3, edgeCount := 2 } }

/-- A concrete (identity) square-root stand-in for closed evaluations whose
graphs never hit the both-endpoints-resolve branch. -/
def sqrtId : Q → Q := fun x => x

/-- C6 counterexample: a single node of confidence 0.9 with a
`uses_endpoint` edge to an unresolvable target. -/
def cxNode : GraphNode :=
  { id := "n1", kind := .finding, label := "lbl", confidence := some (qof 9 10) }

def cxEdge : GraphEdge :=
  { id := "e1", kind := .uses_endpoint, fromId := "n1", toId := "zz",
    weight := some (qof 1 2) }

def cxGraph : ReachabilityGraph :=
  { nodes := [cxNode], edges := [cxEdge], stats := { nodeCount := 1, edgeCount := 1 } }

/-- Cyclic two-node fixture A → B → A (both nodes high-confidence so the
propagation seeds traverse the cycle). -/
def cycA : GraphNode := { id := "a", kind := .finding, label := "a", confidence := some (qof 9 10) }

def cycB : GraphNode := { id := "b", kind := .finding, label := "b", confidence := some (qof 9 10) }

def cycAB : GraphEdge :=
  { id := "ab", kind := .calls, fromId := "a", toId := "b", weight := some (qof 1 2) }

def cycBA : GraphEdge :=
  { id := "ba", kind := .calls, fromId := "b", toId := "a", weight := some (qof 1 2) }

def cycGraph : ReachabilityGraph :=
  { nodes := [cycA, cycB], edges := [cycAB, cycBA], stats := { nodeCount := 2, edgeCount := 2 } }

/-- A standalone hint finding with confidence 0.9 (above the floor:
`0.45 × 0.9 = 0.405 ≥ 0.35`). -/
def w4Hint : Finding :=
  { id := "h4", ruleId := "AI-FP-MISTRAL-IMPORT", severity := .low, file := "a.py",
    line := some 1, evidence := "import mistral", confidence := qof 9 10 }

/-- A finding whose rule id has no taxonomy entry. -/
def w9Unknown : Finding :=
  { id := "u9", ruleId := "CUSTOM-RULE-X", severity := .moderate, file := "b.py",
    line := some 2, evidence := "custom()", confidence := qof 6 10 }

/-- A standalone metadata finding with confidence 0.5
(`0.30 × 0.5 = 0.15 < 0.35`, below the hint floor). -/
def w10Meta : Finding :=
  { id := "m10", ruleId := "AI-MCP-PROTOCOL", severity := .low, file := "c.py",
    line := some 3, evidence := "jsonrpc", confidence := qof 5 10 }

/-- A usage finding used to witness severity monotonicity. -/
def w5Find : Finding :=
  { id := "u5", ruleId := "AI-FP-OPENAI-CLIENT", severity := .low, file := "d.py",
    line := some 4, evidence := "client", confidence := qof 9 10 }

/-- C6's base edge weight as the claim words it: the kind multiplier and
the clamp at 1 are applied only when both endpoints resolve, the bare
endpoint confidence when exactly one resolves, and the bare prior weight
(or 0.5) otherwise.  Written from the claim, to be compared against
`baseEdgeWeight`, which is written from the source. -/
def claimC6BaseWeight (sqrtFn : Q → Q) (g : ReachabilityGraph) (e : GraphEdge) : Q :=
  let kindMult : Q :=
    match e.kind with
    | .uses_model | .uses_tool => qof 115 100
    | .uses_endpoint => qof 12 10
    | _ => qof 1 1
  match lookupNode g e.fromId, lookupNode g e.toId with
  | some fn, some tn =>
    qmin (qof 1 1) (qmul kindMult (sqrtFn (qmul (nodeConfHalf fn) (nodeConfHalf tn))))
  | some fn, none => nodeConfHalf fn
  | none, some tn => nodeConfHalf tn
  | none, none => e.weight.getD (qof 1 2)

/-! ## Claim theorems -/

/-- **C8**: `propagateConfidence` changes only edge weights: the node list
is returned unchanged, the edges keep their count, order, `id`, `kind`,
`from`, `to` and `label`, and the returned stats are the node and edge
counts of the input. -/
theorem propagateConfidence_frame (sqrtFn : Q → Q) (g : ReachabilityGraph) :
    (propagateConfidence sqrtFn g).nodes = g.nodes ∧
    (propagateConfidence sqrtFn g).edges.map
        (fun e => (e.id, e.kind, e.fromId, e.toId, e.label)) =
      g.edges.map (fun e => (e.id, e.kind, e.fromId, e.toId, e.label)) ∧
    (propagateConfidence sqrtFn g).stats =
      { nodeCount := g.nodes.length, edgeCount := g.edges.length } := by
  refine ⟨rfl, ?_, ?_⟩
  · simp [propagateConfidence, propagateConfidenceFuel]
  · simp [propagateConfidence, propagateConfidenceFuel]

set_option maxRecDepth 40000 in
/-- **C1** (Scenario 1, corroboration boost): on the two-finding input —
`AI-FP-OPENAI-IMPORT` (hint, confidence 0.9, line 3) and
`AI-FP-OPENAI-CLIENT` (usage, confidence 0.8, line 10), same file —
`groupFindings` returns exactly one group: primary is the usage finding,
exactly one related finding (the hint), `riskBoost = 1`, and composite
score `min(1, (0.75×0.8 + 0.45×0.9×1)×1.15) = 1`. -/
theorem scenario1_corroboration :
    (groupFindings [s1Import, s1Client]).map
        (fun g => (g.primaryFinding, g.relatedFindings, g.riskBoost, g.compositeScore)) =
      [(s1Client, [s1Import], 1, some (qof 1 1))] ∧
    qeq (qof 1 1)
        (qmin (qof 1 1)
          (qmul (qadd (qmul (qof 75 100) (qof 8 10)) (qmul (qof 45 100) (qof 9 10)))
            (qof 115 100))) = true := by
  decide

set_option maxRecDepth 40000 in
/-- **C2 counterexample**: on the Scenario 3 fixture (HTTP-input source
0.8 → LLM-invoke transform 0.9 → shell-exec sink 0.7, edge weights 0.5),
`detectRiskyPaths` returns one path, but its risk level is *not* `low` and
its confidence is *not* below the 0.4 moderate threshold, contradicting
the claimed `≈ 0.367 → "low"`. -/
theorem scenario3_counterexample :
    (detectRiskyPaths rpGraph).length = 1 ∧
    ¬ ((detectRiskyPaths rpGraph).map (fun p => p.riskLevel) = [RiskLevel.low]) ∧
    ¬ ((detectRiskyPaths rpGraph).all (fun p => qlt p.confidence (qof 4 10)) = true) := by
  decide

set_option maxRecDepth 40000 in
/-- **C2 (amended)** (Scenario 3, risky path): on the fixture,
`detectRiskyPaths` returns exactly one `RiskyPath`
source → transform → sink whose confidence equals
`0.8×0.9×0.7×0.9² = 0.40824` — per the general rule
`pathConfidence = Π(nodeConfidence)×0.9^(pathLength−1)` — which meets the
0.4 threshold, so its risk level is `moderate`. -/
theorem scenario3_risky_path :
    (detectRiskyPaths rpGraph).map
        (fun p => (p.source.id, p.transforms.map (·.id), p.sink.id, p.path.map (·.id),
          p.riskLevel)) =
      [("src|app.py|1", ["llm|app.py|2"], "snk|app.py|3",
        ["src|app.py|1", "llm|app.py|2", "snk|app.py|3"], RiskLevel.moderate)] ∧
    ((detectRiskyPaths rpGraph).map (fun p => p.confidence)).all
        (fun c => qeq c (qmul (qmul (qmul (qof 8 10) (qof 9 10)) (qof 7 10))
          (qpow (qof 9 10) 2))) = true ∧
    qeq (qmul (qmul (qmul (qof 8 10) (qof 9 10)) (qof 7 10)) (qpow (qof 9 10) 2))
        (qof 40824 100000) = true := by
  decide

/-- Propagation DFS fuel stability: any fuel with `fuel + depth ≥ 7` gives
the same result — the traversal is cut by the `depth > 5` guard and the
visited set, never by fuel. -/
theorem fpNode_stable (g : ReachabilityGraph) (ew : String → Q) :
    ∀ n m start visited pathLength depth ps, 7 ≤ n + depth → 7 ≤ m + depth →
      fpNode g ew n start visited pathLength depth ps =
        fpNode g ew m start visited pathLength depth ps := by
  intro n
  induction n using Nat.strong_induction_on with
  | _ n ih =>
    intro m start visited pathLength depth ps hn hm
    match n, m with
    | 0, 0 => rfl
    | 0, m + 1 =>
      have h5 : depth > 5 := by omega
      simp only [fpNode]
      rw [if_pos (Or.inl h5)]
    | n + 1, 0 =>
      have h5 : depth > 5 := by omega
      simp only [fpNode]
      rw [if_pos (Or.inl h5)]
    | n + 1, m + 1 =>
      simp only [fpNode]
      split
      · rfl
      · refine List.foldl_ext _ _ ps (fun ps e _ => ?_)
        split
        · rfl
        · exact ih n (by omega) m _ _ _ _ _ (by omega) (by omega)

/-- Risky-path DFS fuel stability: any fuel with `fuel + depth ≥ 8` gives
the same result — the traversal is cut by the `depth > 6` guard and the
visited set, never by fuel. -/
theorem fsNode_stable (g : ReachabilityGraph) :
    ∀ n m start sinkId visited path transforms depth, 8 ≤ n + depth → 8 ≤ m + depth →
      fsNode g n start sinkId visited path transforms depth =
        fsNode g m start sinkId visited path transforms depth := by
  intro n
  induction n using Nat.strong_induction_on with
  | _ n ih =>
    intro m start sinkId visited path transforms depth hn hm
    match n, m with
    | 0, 0 => rfl
    | 0, m + 1 =>
      have h6 : depth > 6 := by omega
      simp only [fsNode]
      rw [if_pos (Or.inl h6)]
    | n + 1, 0 =>
      have h6 : depth > 6 := by omega
      simp only [fsNode]
      rw [if_pos (Or.inl h6)]
    | n + 1, m + 1 =>
      simp only [fsNode]
      split
      · rfl
      · split
        · rfl
        · split <;>
          · split
            · rfl
            · refine List.foldl_ext _ _ [] (fun acc e _ => ?_)
              congr 1
              split
              · exact ih n (by omega) m _ _ _ _ _ _ (by omega) (by omega)
              · rfl

/-- **C7**: both bounded searches are cut by their visited set and hard
depth bound, not by the available recursion budget: on every graph
(cyclic ones included), running the propagation search with any fuel
`≥ 7` and the risky-path search with any fuel `≥ 8` gives exactly the
result of the configured searches (max depth 5 resp. 6) — every DFS
terminates and never exceeds its maximum depth. -/
theorem dfs_depth_bounded (sqrtFn : Q → Q) (g : ReachabilityGraph) (f f' : Nat)
    (hf : 7 ≤ f) (hf' : 8 ≤ f') :
    propagateConfidenceFuel sqrtFn f g = propagateConfidence sqrtFn g ∧
    detectRiskyPathsFuel f' g = detectRiskyPaths g := by
  constructor
  · have hps : pathScoresOf sqrtFn f g = pathScoresOf sqrtFn 7 g := by
      unfold pathScoresOf
      refine List.foldl_ext _ _ [] (fun ps nid _ => ?_)
      exact fpNode_stable g _ f 7 nid [] 0 0 ps (by omega) (by omega)
    unfold propagateConfidence propagateConfidenceFuel
    rw [hps]
  · simp only [detectRiskyPaths, detectRiskyPathsFuel]
    have hrp :
        ∀ (sources sinks : List GraphNode) acc,
          sources.foldl (fun acc source =>
            sinks.foldl (fun acc2 sink =>
              if source.id == sink.id then acc2
              else acc2 ++ fsNode g f' source.id sink.id [] [] [] 0) acc) acc =
          sources.foldl (fun acc source =>
            sinks.foldl (fun acc2 sink =>
              if source.id == sink.id then acc2
              else acc2 ++ fsNode g 8 source.id sink.id [] [] [] 0) acc) acc := by
      intro sources sinks acc
      refine List.foldl_ext _ _ acc (fun acc source _ => ?_)
      refine List.foldl_ext _ _ acc (fun acc2 sink _ => ?_)
      split
      · rfl
      · rw [fsNode_stable g f' 8 source.id sink.id [] [] [] 0 (by omega) (by omega)]
    rw [hrp]

theorem dfs_depth_bounded_witness :
    (7 ≤ 20 ∧ 8 ≤ 30) ∧
    (propagateConfidenceFuel sqrtId 20 cycGraph = propagateConfidence sqrtId cycGraph ∧
      detectRiskyPathsFuel 30 cycGraph = detectRiskyPaths cycGraph) :=
  ⟨⟨by decide, by decide⟩, dfs_depth_bounded sqrtId cycGraph 20 30 (by decide) (by decide)⟩

/-- `Math.max(0, Math.min(1, x))` really lands in [0,1]. -/
theorem clamp01_bounds (x : Q) :
    qle (qof 0 1) (clamp01 x) = true ∧ qle (clamp01 x) (qof 1 1) = true := by
  unfold clamp01 qmax qmin
  constructor <;>
  · split <;> rename_i h1 <;>
    first
    | (simp only [qle, qof, decide_eq_true_eq] at *; omega)
    | (split <;> rename_i h2 <;> simp only [qle, qof, decide_eq_true_eq] at * <;> omega)

theorem awGet_awSet_self (m : List (String × Q)) (k : String) (v : Q) :
    awGet (awSet m k v) k = some v := by
  induction m with
  | nil => simp [awSet, awGet]
  | cons hd t ih =>
    by_cases h : hd.1 = k
    · simp [awSet, awGet, h]
    · simp only [awSet]
      rw [if_neg (by simpa using h)]
      simpa [awGet, h] using ih

theorem awGet_awSet_ne (m : List (String × Q)) (k k' : String) (v : Q) (h : k' ≠ k) :
    awGet (awSet m k' v) k = awGet m k := by
  induction m with
  | nil => simp [awSet, awGet, h]
  | cons hd t ih =>
    by_cases h2 : hd.1 = k'
    · simp only [awSet]
      rw [if_pos (by simpa using h2)]
      simp [awGet, h2, h]
    · simp only [awSet]
      rw [if_neg (by simpa using h2)]
      by_cases h3 : hd.1 = k
      · simp [awGet, h3]
      · simpa [awGet, h3] using ih

theorem awGet_fold_not_mem (f : GraphEdge → Q) :
    ∀ (l : List GraphEdge) (m : List (String × Q)) (k : String),
      (∀ e ∈ l, e.id ≠ k) →
      awGet (l.foldl (fun m e => awSet m e.id (f e)) m) k = awGet m k := by
  intro l
  induction l with
  | nil => intro m k _; rfl
  | cons e t ih =>
    intro m k h
    simp only [List.foldl_cons]
    rw [ih _ _ (fun e' he' => h e' (List.mem_cons_of_mem _ he'))]
    exact awGet_awSet_ne m k e.id (f e) (h e (List.mem_cons_self _ _))

/-- Looking up an edge id in a weight map built by `Map.set` over edges
with pairwise-distinct ids yields that edge's own computed value. -/
theorem awGet_build (f : GraphEdge → Q) :
    ∀ (l : List GraphEdge) (m : List (String × Q)) (e : GraphEdge),
      e ∈ l → (l.map (fun e => e.id)).Nodup →
      awGet (l.foldl (fun m e => awSet m e.id (f e)) m) e.id = some (f e) := by
  intro l
  induction l with
  | nil => intro m e he _; cases he
  | cons x t ih =>
    intro m e he hnd
    simp only [List.map_cons, List.nodup_cons] at hnd
    rcases List.mem_cons.mp he with rfl | het
    · simp only [List.foldl_cons]
      rw [awGet_fold_not_mem f t _ _
        (fun e' he' hne => hnd.1 (by rw [← hne]; exact List.mem_map_of_mem _ he'))]
      exact awGet_awSet_self m e.id (f e)
    · simp only [List.foldl_cons]
      exact ih _ e het hnd.2

theorem awGet_edgeWeightsMap (sqrtFn : Q → Q) (g : ReachabilityGraph) (e : GraphEdge)
    (he : e ∈ g.edges) (hnd : (g.edges.map (fun e => e.id)).Nodup) :
    awGet (edgeWeightsMap sqrtFn g) e.id = some (baseEdgeWeight sqrtFn g e) :=
  awGet_build _ g.edges [] e he hnd

/-- **C6 (amended)**: after `propagateConfidence`, every edge weight lies
in [0,1]; and — when edge ids are pairwise distinct, as the id-keyed
weight maps require — each edge's weight equals
`clamp01(0.6×baseEdgeWeight + 0.4×bestPathScore)`, where
`baseEdgeWeight` applies the kind multiplier and the clamp at 1 in
*every* endpoint-resolution case (not just when both endpoints resolve),
and `bestPathScore` is the maximum decayed score the seeded bounded DFS
recorded for that edge id (0 if never reached). -/
theorem propagation_weights (sqrtFn : Q → Q) (g : ReachabilityGraph)
    (hnd : (g.edges.map (fun e => e.id)).Nodup) :
    (propagateConfidence sqrtFn g).edges =
      g.edges.map (fun e =>
        { e with weight := some (clamp01 (qadd (qmul (baseEdgeWeight sqrtFn g e) (qof 6 10))
            (qmul ((awGet (pathScoresOf sqrtFn 7 g) e.id).getD (qof 0 1)) (qof 4 10)))) }) ∧
    ∀ e ∈ (propagateConfidence sqrtFn g).edges, ∃ w, e.weight = some w ∧
      qle (qof 0 1) w = true ∧ qle w (qof 1 1) = true := by
  constructor
  · simp only [propagateConfidence, propagateConfidenceFuel]
    refine List.map_congr_left (fun e he => ?_)
    rw [awGet_edgeWeightsMap sqrtFn g e he hnd]
    rfl
  · intro e he
    simp only [propagateConfidence, propagateConfidenceFuel, List.mem_map] at he
    obtain ⟨e0, _, rfl⟩ := he
    exact ⟨_, rfl, (clamp01_bounds _).1, (clamp01_bounds _).2⟩

theorem propagation_weights_witness :
    (cxGraph.edges.map (fun e => e.id)).Nodup ∧
    ((propagateConfidence sqrtId cxGraph).edges =
      cxGraph.edges.map (fun e =>
        { e with weight := some (clamp01 (qadd (qmul (baseEdgeWeight sqrtId cxGraph e) (qof 6 10))
            (qmul ((awGet (pathScoresOf sqrtId 7 cxGraph) e.id).getD (qof 0 1)) (qof 4 10)))) }) ∧
     ∀ e ∈ (propagateConfidence sqrtId cxGraph).edges, ∃ w, e.weight = some w ∧
       qle (qof 0 1) w = true ∧ qle w (qof 1 1) = true) :=
  ⟨by decide, propagation_weights sqrtId cxGraph (by decide)⟩

set_option maxRecDepth 40000 in
/-- **C6 counterexample**: on a one-node graph (confidence 0.9) with a
single `uses_endpoint` edge to an unresolved target, the code's final
weight is 1 (the ×1.2 kind multiplier applies to the single-endpoint base
weight, clamped at 1), while the claim's base weight (bare endpoint
confidence 0.9) yields a final weight below 1 under either reading of
`bestPathScore` — so the claimed formula is false as stated. -/
theorem propagation_base_weight_counterexample :
    (propagateConfidence sqrtId cxGraph).edges.map (fun e => e.weight) = [some (qof 1 1)] ∧
    claimC6BaseWeight sqrtId cxGraph cxEdge = qof 9 10 ∧
    qeq (qof 1 1) (clamp01 (qadd (qmul (claimC6BaseWeight sqrtId cxGraph cxEdge) (qof 6 10))
      (qmul (claimC6BaseWeight sqrtId cxGraph cxEdge) (qof 4 10)))) = false ∧
    qeq (qof 1 1) (clamp01 (qadd (qmul (claimC6BaseWeight sqrtId cxGraph cxEdge) (qof 6 10))
      (qmul ((awGet (pathScoresOf sqrtId 7 cxGraph) cxEdge.id).getD (qof 0 1)) (qof 4 10)))) =
      false := by
  decide

theorem lookupNode_id (g : ReachabilityGraph) (s : String) (n : GraphNode)
    (h : lookupNode g s = some n) : n.id = s := by
  have := List.find?_some h
  exact eq_of_beq this

theorem headD_append_singleton {α : Type} (l : List α) (a d : α) :
    (l ++ [a]).headD d = l.headD a := by
  cases l <;> rfl

theorem mem_foldl_append {α β : Type} (f : β → List α) :
    ∀ (l : List β) (init : List α) (x : α),
      x ∈ l.foldl (fun acc e => acc ++ f e) init → x ∈ init ∨ ∃ e ∈ l, x ∈ f e := by
  intro l
  induction l with
  | nil => intro init x h; exact Or.inl h
  | cons e t ih =>
    intro init x h
    rcases ih (init ++ f e) x h with h2 | ⟨e', he', hx⟩
    · rcases List.mem_append.mp h2 with h3 | h3
      · exact Or.inl h3
      · exact Or.inr ⟨e, List.mem_cons_self _ _, h3⟩
    · exact Or.inr ⟨e', List.mem_cons_of_mem _ he', hx⟩

/-- Every risky path recorded by `findPathToSink` carries at least one
transform, ends at the designated sink id, and starts at the head of the
accumulated path (the original source when the path is empty). -/
theorem fsNode_inv (g : ReachabilityGraph) :
    ∀ fuel start sinkId visited path transforms depth p,
      p ∈ fsNode g fuel start sinkId visited path transforms depth →
      p.transforms ≠ [] ∧ p.sink.id = sinkId ∧
        p.source.id = (path.map (fun n => n.id)).headD start := by
  intro fuel
  induction fuel with
  | zero => intro start sinkId visited path transforms depth p hp; cases hp
  | succ n ih =>
    intro start sinkId visited path transforms depth p hp
    simp only [fsNode] at hp
    split at hp
    · cases hp
    · split at hp
      · cases hp
      · rename_i cur hcur
        have hcurid : cur.id = start := lookupNode_id g start cur hcur
        split at hp <;>
        · split at hp
          · rename_i hrec
            rcases List.mem_singleton.mp hp with rfl
            refine ⟨List.length_pos.mp hrec.2, ?_, ?_⟩
            · simp only [List.getLastD_concat]
              rw [hcurid]
              exact eq_of_beq hrec.1
            · cases path with
              | nil => simpa using hcurid
              | cons q t => simp [List.headI]
          · rcases mem_foldl_append _ _ _ _ hp with h | ⟨e, _, hx⟩
            · cases h
            · split at hx
              · have h3 := ih e.toId sinkId _ _ _ _ p hx
                refine ⟨h3.1, h3.2.1, ?_⟩
                rw [h3.2.2]
                simp only [List.map_append, List.map_cons, List.map_nil]
                rw [headD_append_singleton]
                cases path with
                | nil => simpa using hcurid
                | cons q t => rfl
              · cases hx

theorem mem_insDescQ {α : Type} (key : α → Q) (x y : α) :
    ∀ l, y ∈ insDescQ key x l → y = x ∨ y ∈ l := by
  intro l
  induction l with
  | nil =>
    intro h
    rcases List.mem_singleton.mp h with rfl
    exact Or.inl rfl
  | cons z t ih =>
    intro h
    simp only [insDescQ] at h
    split at h
    · rcases List.mem_cons.mp h with rfl | h2
      · exact Or.inr (List.mem_cons_self _ _)
      · rcases ih h2 with h3 | h3
        · exact Or.inl h3
        · exact Or.inr (List.mem_cons_of_mem _ h3)
    · rcases List.mem_cons.mp h with rfl | h2
      · exact Or.inl rfl
      · exact Or.inr h2

theorem mem_sortDescQ_aux {α : Type} (key : α → Q) :
    ∀ (l acc : List α) (y : α),
      y ∈ l.foldl (fun a x => insDescQ key x a) acc → y ∈ acc ∨ y ∈ l := by
  intro l
  induction l with
  | nil => intro acc y h; exact Or.inl h
  | cons x t ih =>
    intro acc y h
    rcases ih (insDescQ key x acc) y h with h2 | h2
    · rcases mem_insDescQ key x y acc h2 with rfl | h3
      · exact Or.inr (List.mem_cons_self _ _)
      · exact Or.inl h3
    · exact Or.inr (List.mem_cons_of_mem _ h2)

theorem mem_sortDescQ {α : Type} (key : α → Q) (l : List α) (y : α)
    (h : y ∈ sortDescQ key l) : y ∈ l := by
  rcases mem_sortDescQ_aux key l [] y h with h2 | h2
  · cases h2
  · exact h2

theorem mem_upsertPath_vals (k : String) (p q : RiskyPath) :
    ∀ m, q ∈ (upsertPath m k p).map (fun e => e.2) → q = p ∨ q ∈ m.map (fun e => e.2) := by
  intro m
  induction m with
  | nil =>
    intro h
    rcases List.mem_singleton.mp h with rfl
    exact Or.inl rfl
  | cons hd t ih =>
    intro h
    simp only [upsertPath] at h
    split at h
    · split at h
      · rcases List.mem_cons.mp h with rfl | h2
        · exact Or.inl rfl
        · exact Or.inr (List.mem_cons_of_mem _ h2)
      · rcases List.mem_cons.mp h with rfl | h2
        · exact Or.inr (List.mem_cons_self _ _)
        · exact Or.inr (List.mem_cons_of_mem _ h2)
    · rcases List.mem_cons.mp h with rfl | h2
      · exact Or.inr (List.mem_cons_self _ _)
      · rcases ih h2 with h3 | h3
        · exact Or.inl h3
        · exact Or.inr (List.mem_cons_of_mem _ h3)

theorem mem_upsert_fold :
    ∀ (ps : List RiskyPath) (m : List (String × RiskyPath)) (q : RiskyPath),
      q ∈ ((ps.foldl (fun m p => upsertPath m (p.source.id ++ "→" ++ p.sink.id) p) m).map
        (fun e => e.2)) →
      q ∈ m.map (fun e => e.2) ∨ q ∈ ps := by
  intro ps
  induction ps with
  | nil => intro m q h; exact Or.inl h
  | cons p t ih =>
    intro m q h
    rcases ih _ q h with h2 | h2
    · rcases mem_upsertPath_vals _ p q m h2 with rfl | h3
      · exact Or.inr (List.mem_cons_self _ _)
      · exact Or.inl h3
    · exact Or.inr (List.mem_cons_of_mem _ h2)

theorem mem_sinkfold (g : ReachabilityGraph) (fuel : Nat) (source : GraphNode) :
    ∀ (sinks : List GraphNode) (acc : List RiskyPath) (p : RiskyPath),
      p ∈ sinks.foldl (fun acc2 sink =>
        if source.id == sink.id then acc2
        else acc2 ++ fsNode g fuel source.id sink.id [] [] [] 0) acc →
      p ∈ acc ∨ ∃ k ∈ sinks, (source.id == k.id) = false ∧
        p ∈ fsNode g fuel source.id k.id [] [] [] 0 := by
  intro sinks
  induction sinks with
  | nil => intro acc p h; exact Or.inl h
  | cons k t ih =>
    intro acc p h
    simp only [List.foldl_cons] at h
    rcases ih _ p h with h2 | ⟨k', hk', hb, hx⟩
    · split at h2
      · exact Or.inl h2
      · rcases List.mem_append.mp h2 with h3 | h3
        · exact Or.inl h3
        · rename_i hne
          exact Or.inr ⟨k, List.mem_cons_self _ _, Bool.not_eq_true _ ▸ (by simpa using hne), h3⟩
    · exact Or.inr ⟨k', List.mem_cons_of_mem _ hk', hb, hx⟩

theorem mem_srcfold (g : ReachabilityGraph) (fuel : Nat) (sinks : List GraphNode) :
    ∀ (sources : List GraphNode) (acc : List RiskyPath) (p : RiskyPath),
      p ∈ sources.foldl (fun acc source =>
        sinks.foldl (fun acc2 sink =>
          if source.id == sink.id then acc2
          else acc2 ++ fsNode g fuel source.id sink.id [] [] [] 0) acc) acc →
      p ∈ acc ∨ ∃ s ∈ sources, ∃ k ∈ sinks, (s.id == k.id) = false ∧
        p ∈ fsNode g fuel s.id k.id [] [] [] 0 := by
  intro sources
  induction sources with
  | nil => intro acc p h; exact Or.inl h
  | cons s t ih =>
    intro acc p h
    simp only [List.foldl_cons] at h
    rcases ih _ p h with h2 | ⟨s', hs', k', hk', hb, hx⟩
    · rcases mem_sinkfold g fuel s sinks acc p h2 with h3 | ⟨k, hk, hb, hx⟩
      · exact Or.inl h3
      · exact Or.inr ⟨s, List.mem_cons_self _ _, k, hk, hb, hx⟩
    · exact Or.inr ⟨s', List.mem_cons_of_mem _ hs', k', hk', hb, hx⟩

/-- **C3**: every `RiskyPath` returned by `detectRiskyPaths`, on every
graph, has a source distinct from its sink and at least one transform; in
particular a node that is simultaneously a source and a sink candidate
never yields a self-loop path. -/
theorem risky_paths_wellformed (g : ReachabilityGraph) (p : RiskyPath)
    (hp : p ∈ detectRiskyPaths g) : p.source.id ≠ p.sink.id ∧ p.transforms ≠ [] := by
  simp only [detectRiskyPaths, detectRiskyPathsFuel] at hp
  have h1 := mem_sortDescQ _ _ _ (List.mem_of_mem_take hp)
  rcases mem_upsert_fold _ _ _ h1 with h2 | h2
  · cases h2
  · rcases mem_srcfold g 8 _ _ _ p h2 with h3 | ⟨s, _, k, _, hb, hx⟩
    · cases h3
    · have h4 := fsNode_inv g 8 s.id k.id [] [] [] 0 p hx
      refine ⟨?_, h4.1⟩
      rw [h4.2.1, h4.2.2]
      simpa using beq_eq_false_iff_ne.mp hb

set_option maxRecDepth 40000 in
theorem risky_paths_wellformed_witness :
    (detectRiskyPaths rpGraph).headI.source.id ≠ (detectRiskyPaths rpGraph).headI.sink.id ∧
    (detectRiskyPaths rpGraph).headI.transforms ≠ [] :=
  risky_paths_wellformed rpGraph ((detectRiskyPaths rpGraph).headI) (by decide)

theorem sevLevels_getD (k : Nat) (hk : k ≤ 3) :
    severityToNumber (sevLevels.getD k .low) = k + 1 := by
  match k, hk with
  | 0, _ => rfl
  | 1, _ => rfl
  | 2, _ => rfl
  | 3, _ => rfl

theorem sevNum_le_boost (s : Severity) (b : Nat) :
    severityToNumber s ≤ severityToNumber (boostSeverity s b) := by
  unfold boostSeverity
  split
  · exact le_refl _
  · cases s with
    | low =>
      show severityToNumber Severity.low ≤
        severityToNumber (sevLevels.getD (min (0 + b) 3) Severity.low)
      rw [sevLevels_getD _ (Nat.min_le_right _ _)]
      simp only [severityToNumber]
      omega
    | moderate =>
      show severityToNumber Severity.moderate ≤
        severityToNumber (sevLevels.getD (min (1 + b) 3) Severity.low)
      rw [sevLevels_getD _ (Nat.min_le_right _ _)]
      simp only [severityToNumber]
      omega
    | high =>
      show severityToNumber Severity.high ≤
        severityToNumber (sevLevels.getD (min (2 + b) 3) Severity.low)
      rw [sevLevels_getD _ (Nat.min_le_right _ _)]
      simp only [severityToNumber]
      omega
    | critical =>
      show severityToNumber Severity.critical ≤
        severityToNumber (sevLevels.getD (min (3 + b) 3) Severity.low)
      rw [sevLevels_getD _ (Nat.min_le_right _ _)]
      simp only [severityToNumber]
      omega

theorem sevNum_le_pickMapped (m s : Severity) :
    severityToNumber s ≤ severityToNumber (pickMapped m s) := by
  unfold pickMapped
  split
  · omega
  · exact le_refl _

theorem hintPhase_sev : ∀ (l : List Finding) (pr : List String) (g : FindingGroup),
    g ∈ (hintPhase l pr).1 → g.severity = g.primaryFinding.severity := by
  intro l
  induction l with
  | nil => intro pr g h; cases h
  | cons h t ih =>
    intro pr g hg
    simp only [hintPhase] at hg
    split at hg
    · exact ih _ g hg
    · split at hg
      · exact ih _ g hg
      · rcases List.mem_cons.mp hg with rfl | h2
        · rfl
        · exact ih _ g h2

theorem metaPhase_sev : ∀ (l : List Finding) (pr : List String) (g : FindingGroup),
    g ∈ (metaPhase l pr).1 → g.severity = g.primaryFinding.severity := by
  intro l
  induction l with
  | nil => intro pr g h; cases h
  | cons m t ih =>
    intro pr g hg
    simp only [metaPhase] at hg
    split at hg
    · exact ih _ g hg
    · rcases List.mem_cons.mp hg with rfl | h2
      · rfl
      · exact ih _ g h2

theorem restPhase_sev : ∀ (l : List Finding) (pr : List String) (g : FindingGroup),
    g ∈ (restPhase l pr).1 → g.severity = g.primaryFinding.severity := by
  intro l
  induction l with
  | nil => intro pr g h; cases h
  | cons f t ih =>
    intro pr g hg
    simp only [restPhase] at hg
    split at hg
    · exact ih _ g hg
    · rcases List.mem_cons.mp hg with rfl | h2
      · rfl
      · exact ih _ g h2

theorem fold_usage_mem (h : String → Option (FindingGroup × List String)) :
    ∀ (rules : List String) (acc : List FindingGroup × List String) (g : FindingGroup),
      g ∈ (rules.foldl (fun acc r =>
        match h r with
        | none => acc
        | some (g', ids) => (acc.1 ++ [g'], acc.2 ++ ids)) acc).1 →
      g ∈ acc.1 ∨ ∃ r ∈ rules, ∃ ids, h r = some (g, ids) := by
  intro rules
  induction rules with
  | nil => intro acc g hg; exact Or.inl hg
  | cons r t ih =>
    intro acc g hg
    simp only [List.foldl_cons] at hg
    rcases ih _ g hg with h2 | ⟨r', hr', ids, hx⟩
    · match hr : h r with
      | none =>
        rw [hr] at h2
        exact Or.inl h2
      | some (g', ids') =>
        rw [hr] at h2
        rcases List.mem_append.mp h2 with h3 | h3
        · exact Or.inl h3
        · rcases List.mem_singleton.mp h3 with rfl
          exact Or.inr ⟨r, List.mem_cons_self _ _, ids', hr⟩
    · exact Or.inr ⟨r', List.mem_cons_of_mem _ hr', ids, hx⟩

theorem usageGroupFor_sev {file ruleId : String} {bucket hf mf : List Finding}
    {g : FindingGroup} {ids : List String}
    (h : usageGroupFor file ruleId bucket hf mf = some (g, ids)) :
    severityToNumber g.primaryFinding.severity ≤ severityToNumber g.severity := by
  cases bucket with
  | nil => simp [usageGroupFor] at h
  | cons hd tl =>
    simp only [usageGroupFor, Option.some.injEq, Prod.mk.injEq] at h
    obtain ⟨h1, -⟩ := h
    subst h1
    exact le_trans (sevNum_le_boost _ _) (sevNum_le_pickMapped _ _)

theorem groupFileFindings_sev (file : String) (findings : List Finding) (g : FindingGroup)
    (hg : g ∈ groupFileFindings file findings) :
    severityToNumber g.primaryFinding.severity ≤ severityToNumber g.severity := by
  simp only [groupFileFindings] at hg
  rcases List.mem_append.mp hg with hg | hg
  · rcases List.mem_append.mp hg with hg | hg
    · rcases List.mem_append.mp hg with hg | hg
      · simp only [usagePhase] at hg
        rcases fold_usage_mem _ _ _ _ hg with h2 | ⟨r, -, ids, hx⟩
        · cases h2
        · exact usageGroupFor_sev hx
      · rw [hintPhase_sev _ _ _ hg]
    · rw [metaPhase_sev _ _ _ hg]
  · rw [restPhase_sev _ _ _ hg]

/-- **C5**: group severity is monotonic — for every input and every group
returned by `groupFindings`, the final severity rank is at least the rank
of the group's primary finding as it appeared in the input: the usage
branch takes the maximum of the structurally-boosted severity and the
score-derived severity, the standalone branches keep the primary's
severity, and the scoring phase only ever raises. -/
theorem group_severity_monotone (findings : List Finding) (g : FindingGroup)
    (hg : g ∈ groupFindings findings) :
    severityToNumber g.primaryFinding.severity ≤ severityToNumber g.severity := by
  simp only [groupFindings, List.mem_map] at hg
  obtain ⟨g0, hg0, rfl⟩ := hg
  obtain ⟨file, -, hmem⟩ := List.mem_flatMap.mp hg0
  have h1 := groupFileFindings_sev _ _ _ hmem
  calc severityToNumber (scorePhase g0).primaryFinding.severity
      = severityToNumber g0.primaryFinding.severity := rfl
    _ ≤ severityToNumber g0.severity := h1
    _ ≤ severityToNumber (scorePhase g0).severity := sevNum_le_pickMapped _ _
set_option maxRecDepth 40000 in
theorem group_severity_monotone_witness :
    severityToNumber ((groupFindings [w5Find]).headI).primaryFinding.severity ≤
      severityToNumber ((groupFindings [w5Find]).headI).severity :=
  group_severity_monotone [w5Find] ((groupFindings [w5Find]).headI) (by decide)


theorem contains_iff (l : List String) (a : String) : l.contains a = true ↔ a ∈ l :=
  List.elem_iff

/-- Deduplication is the identity when no two findings share a key. -/
theorem dedupGo_eq_self :
    ∀ (l : List Finding) (seen : List String),
      (∀ f ∈ l, ¬ seen.contains (dedupKey f) = true) → (l.map dedupKey).Nodup →
      dedupGo seen l = l := by
  intro l
  induction l with
  | nil => intro seen _ _; rfl
  | cons f t ih =>
    intro seen hseen hnd
    simp only [List.map_cons, List.nodup_cons] at hnd
    simp only [dedupGo]
    rw [if_neg (hseen f (List.mem_cons_self _ _))]
    congr 1
    refine ih _ (fun f' hf' => ?_) hnd.2
    intro hcon
    rcases List.mem_append.mp ((contains_iff _ _).mp hcon) with h | h
    · exact hseen f' (List.mem_cons_of_mem _ hf') ((contains_iff _ _).mpr h)
    · exact hnd.1 (List.mem_singleton.mp h ▸ List.mem_map_of_mem _ hf')

theorem mem_dsGo :
    ∀ (l seen : List String) (s : String),
      s ∈ l → ¬ seen.contains s = true → s ∈ dsGo seen l := by
  intro l
  induction l with
  | nil => intro seen s h _; cases h
  | cons x t ih =>
    intro seen s hs hseen
    simp only [dsGo]
    by_cases hx : s = x
    · subst hx
      rw [if_neg hseen]
      exact List.mem_cons_self _ _
    · have hst : s ∈ t := by
        rcases List.mem_cons.mp hs with h | h
        · exact absurd h hx
        · exact h
      split
      · exact ih _ s hst hseen
      · refine List.mem_cons_of_mem _ (ih _ s hst ?_)
        intro hcon
        rcases List.mem_append.mp ((contains_iff _ _).mp hcon) with h | h
        · exact hseen ((contains_iff _ _).mpr h)
        · exact hx (List.mem_singleton.mp h)

theorem roleIs_entry {f : Finding} {r : SignalRole} (h : roleIs f r = true) :
    ruleRel f.ruleId ≠ none := by
  intro hnone
  rw [roleIs, hnone] at h
  cases h

theorem roleIs_unique {f : Finding} {r r' : SignalRole} (h : roleIs f r = true)
    (h' : roleIs f r' = true) : r = r' := by
  rw [roleIs] at h h'
  match hrel : ruleRel f.ruleId with
  | none => rw [hrel] at h; cases h
  | some rel =>
    rw [hrel] at h h'
    exact (eq_of_beq h).symm.trans (eq_of_beq h')

theorem dedupById_subset :
    ∀ (l : List Finding) (seen : List String) (x : Finding), x ∈ dedupById seen l → x ∈ l := by
  intro l
  induction l with
  | nil => intro seen x h; cases h
  | cons f t ih =>
    intro seen x h
    simp only [dedupById] at h
    split at h
    · exact List.mem_cons_of_mem _ (ih _ x h)
    · rcases List.mem_cons.mp h with rfl | h2
      · exact List.mem_cons_self _ _
      · exact List.mem_cons_of_mem _ (ih _ x h2)

theorem choosePrimary_mem (hd : Finding) (tl : List Finding) :
    choosePrimary hd tl ∈ hd :: tl := by
  unfold choosePrimary
  suffices h : ∀ (l : List Finding) (b : Finding) (acc : List Finding), b ∈ acc →
      (∀ x ∈ l, x ∈ acc) →
      l.foldl (fun best cand =>
        if qlt (primaryCandidateScore best) (primaryCandidateScore cand) then cand
        else best) b ∈ acc by
    exact h tl hd (hd :: tl) (List.mem_cons_self _ _) (fun x hx => List.mem_cons_of_mem _ hx)
  intro l
  induction l with
  | nil => intro b acc hb _; exact hb
  | cons x t ih =>
    intro b acc hb hl
    simp only [List.foldl_cons]
    refine ih _ acc ?_ (fun y hy => hl y (List.mem_cons_of_mem _ hy))
    split
    · exact hl x (List.mem_cons_self _ _)
    · exact hb

/-- The primary of a usage group is one of the bucket's usage findings. -/
theorem usageGroupFor_prim {file ruleId : String} {bucket hf mf : List Finding}
    {g : FindingGroup} {ids : List String}
    (h : usageGroupFor file ruleId bucket hf mf = some (g, ids)) :
    g.primaryFinding ∈ bucket := by
  cases bucket with
  | nil => simp [usageGroupFor] at h
  | cons hd tl =>
    simp only [usageGroupFor, Option.some.injEq, Prod.mk.injEq] at h
    obtain ⟨h1, -⟩ := h
    subst h1
    exact choosePrimary_mem hd tl

/-- Every id a usage group marks as processed is the id of a pulled hint,
a pulled metadata finding, or a bucket usage finding. -/
theorem usageGroupFor_ids {file ruleId : String} {bucket hf mf : List Finding}
    {g : FindingGroup} {ids : List String}
    (h : usageGroupFor file ruleId bucket hf mf = some (g, ids)) :
    ∀ id ∈ ids, (∃ f ∈ hf, f.id = id) ∨ (∃ f ∈ mf, f.id = id) ∨ (∃ f ∈ bucket, f.id = id) := by
  cases bucket with
  | nil => simp [usageGroupFor] at h
  | cons hd tl =>
    simp only [usageGroupFor, Option.some.injEq, Prod.mk.injEq] at h
    obtain ⟨-, h2⟩ := h
    subst h2
    intro id hid
    rcases List.mem_append.mp hid with hid | hid
    · obtain ⟨x, hx, rfl⟩ := List.mem_map.mp hid
      have hx2 := dedupById_subset _ _ _ hx
      rcases List.mem_append.mp hx2 with hx3 | hx3
      · obtain ⟨hr, -, hx4⟩ := List.mem_flatMap.mp hx3
        exact Or.inl ⟨x, List.mem_of_mem_filter hx4, rfl⟩
      · exact Or.inr (Or.inl ⟨x, List.mem_of_mem_filter hx3, rfl⟩)
    · obtain ⟨x, hx, rfl⟩ := List.mem_map.mp hid
      exact Or.inr (Or.inr ⟨x, hx, rfl⟩)

theorem fold_usage_ids (h : String → Option (FindingGroup × List String)) :
    ∀ (rules : List String) (acc : List FindingGroup × List String) (id : String),
      id ∈ (rules.foldl (fun acc r =>
        match h r with
        | none => acc
        | some (g', ids) => (acc.1 ++ [g'], acc.2 ++ ids)) acc).2 →
      id ∈ acc.2 ∨ ∃ r ∈ rules, ∃ g ids, h r = some (g, ids) ∧ id ∈ ids := by
  intro rules
  induction rules with
  | nil => intro acc id hid; exact Or.inl hid
  | cons r t ih =>
    intro acc id hid
    simp only [List.foldl_cons] at hid
    rcases ih _ id hid with h2 | ⟨r', hr', g, ids, hx, hin⟩
    · match hr : h r with
      | none =>
        rw [hr] at h2
        exact Or.inl h2
      | some (g', ids') =>
        rw [hr] at h2
        rcases List.mem_append.mp h2 with h3 | h3
        · exact Or.inl h3
        · exact Or.inr ⟨r, List.mem_cons_self _ _, g', ids', hr, h3⟩
    · exact Or.inr ⟨r', List.mem_cons_of_mem _ hr', g, ids, hx, hin⟩

/-- Soundness of the processed set after the usage phase: every processed
id belongs to a finding of the file that has a taxonomy entry. -/
theorem usagePhase_ids (file : String) (findings : List Finding) :
    ∀ id ∈ (usagePhase file findings).2,
      ∃ f ∈ findings, f.id = id ∧ ruleRel f.ruleId ≠ none := by
  intro id hid
  simp only [usagePhase] at hid
  rcases fold_usage_ids _ _ _ _ hid with h | ⟨r, -, g, ids, hx, hin⟩
  · cases h
  · rcases usageGroupFor_ids hx id hin with ⟨f, hf, rfl⟩ | ⟨f, hf, rfl⟩ | ⟨f, hf, rfl⟩
    · refine ⟨f, List.mem_of_mem_filter hf, rfl, ?_⟩
      exact @roleIs_entry f .hint (by simpa using List.of_mem_filter hf)
    · refine ⟨f, List.mem_of_mem_filter hf, rfl, ?_⟩
      exact @roleIs_entry f .metadata (by simpa using List.of_mem_filter hf)
    · have hf2 := List.mem_of_mem_filter hf
      refine ⟨f, List.mem_of_mem_filter hf2, rfl, ?_⟩
      exact @roleIs_entry f .usage (by simpa using List.of_mem_filter hf2)

theorem hintPhase_superset :
    ∀ (l : List Finding) (p : List String) (id : String),
      id ∈ p → id ∈ (hintPhase l p).2 := by
  intro l
  induction l with
  | nil => intro p id h; exact h
  | cons h t ih =>
    intro p id hid
    simp only [hintPhase]
    split
    · exact ih _ _ hid
    · split
      · exact ih _ _ (List.mem_append.mpr (Or.inl hid))
      · exact ih _ _ (List.mem_append.mpr (Or.inl hid))

theorem hintPhase_ids :
    ∀ (l : List Finding) (p : List String) (id : String),
      id ∈ (hintPhase l p).2 → id ∈ p ∨ ∃ f ∈ l, f.id = id := by
  intro l
  induction l with
  | nil => intro p id h; exact Or.inl h
  | cons h t ih =>
    intro p id hid
    simp only [hintPhase] at hid
    split at hid
    · rcases ih _ _ hid with h2 | ⟨f, hf, rfl⟩
      · exact Or.inl h2
      · exact Or.inr ⟨f, List.mem_cons_of_mem _ hf, rfl⟩
    · split at hid
      all_goals
        rcases ih _ _ hid with h2 | ⟨f, hf, rfl⟩
        · rcases List.mem_append.mp h2 with h3 | h3
          · exact Or.inl h3
          · exact Or.inr ⟨h, List.mem_cons_self _ _, (List.mem_singleton.mp h3).symm⟩
        · exact Or.inr ⟨f, List.mem_cons_of_mem _ hf, rfl⟩

theorem hintPhase_adds :
    ∀ (l : List Finding) (p : List String) (f : Finding),
      f ∈ l → f.id ∈ (hintPhase l p).2 := by
  intro l
  induction l with
  | nil => intro p f h; cases h
  | cons h t ih =>
    intro p f hf
    rcases List.mem_cons.mp hf with rfl | hft
    · simp only [hintPhase]
      split
      · rename_i hcon
        exact hintPhase_superset _ _ _ ((contains_iff _ _).mp hcon)
      · split
        all_goals exact hintPhase_superset _ _ _ (List.mem_append.mpr (Or.inr (List.mem_singleton.mpr rfl)))
    · simp only [hintPhase]
      split
      · exact ih _ _ hft
      · split
        all_goals exact ih _ _ hft

theorem metaPhase_superset :
    ∀ (l : List Finding) (p : List String) (id : String),
      id ∈ p → id ∈ (metaPhase l p).2 := by
  intro l
  induction l with
  | nil => intro p id h; exact h
  | cons m t ih =>
    intro p id hid
    simp only [metaPhase]
    split
    · exact ih _ _ hid
    · exact ih _ _ (List.mem_append.mpr (Or.inl hid))

theorem metaPhase_ids :
    ∀ (l : List Finding) (p : List String) (id : String),
      id ∈ (metaPhase l p).2 → id ∈ p ∨ ∃ f ∈ l, f.id = id := by
  intro l
  induction l with
  | nil => intro p id h; exact Or.inl h
  | cons m t ih =>
    intro p id hid
    simp only [metaPhase] at hid
    split at hid
    · rcases ih _ _ hid with h2 | ⟨f, hf, rfl⟩
      · exact Or.inl h2
      · exact Or.inr ⟨f, List.mem_cons_of_mem _ hf, rfl⟩
    · rcases ih _ _ hid with h2 | ⟨f, hf, rfl⟩
      · rcases List.mem_append.mp h2 with h3 | h3
        · exact Or.inl h3
        · exact Or.inr ⟨m, List.mem_cons_self _ _, (List.mem_singleton.mp h3).symm⟩
      · exact Or.inr ⟨f, List.mem_cons_of_mem _ hf, rfl⟩

/-- The remaining-findings loop emits a fresh standalone group for every
finding whose id was not processed, given pairwise-distinct ids. -/
theorem restPhase_emit :
    ∀ (l : List Finding) (p : List String) (f : Finding),
      f ∈ l → p.contains f.id = false → (l.map (fun x => x.id)).Nodup →
      ∃ g ∈ (restPhase l p).1, g.primaryFinding = f ∧ g.relatedFindings = [] ∧
        g.riskBoost = 0 ∧ g.compositeScore = none ∧ g.contributingSignals = none := by
  intro l
  induction l with
  | nil => intro p f h; cases h
  | cons x t ih =>
    intro p f hf hp hnd
    simp only [List.map_cons, List.nodup_cons] at hnd
    rcases List.mem_cons.mp hf with rfl | hft
    · simp only [restPhase]
      rw [if_neg (by rw [hp]; simp)]
      exact ⟨_, List.mem_cons_self _ _, rfl, rfl, rfl, rfl, rfl⟩
    · have hne : f.id ≠ x.id := by
        intro heq
        exact hnd.1 (heq ▸ List.mem_map_of_mem _ hft)
      have hpx : (p ++ [x.id]).contains f.id = false := by
        rw [← Bool.not_eq_true]
        intro hcon
        rcases List.mem_append.mp ((contains_iff _ _).mp hcon) with h3 | h3
        · rw [(contains_iff _ _).mpr h3] at hp
          cases hp
        · exact hne (List.mem_singleton.mp h3)
      simp only [restPhase]
      split
      · exact ih _ f hft hp hnd.2
      · obtain ⟨g, hg, hprops⟩ := ih (p ++ [x.id]) f hft hpx hnd.2
        exact ⟨g, List.mem_cons_of_mem _ hg, hprops⟩

/-- Every group the remaining-findings loop emits has an unprocessed
primary drawn from the file's findings. -/
theorem restPhase_prim :
    ∀ (l : List Finding) (p : List String) (g : FindingGroup),
      g ∈ (restPhase l p).1 →
      g.primaryFinding ∈ l ∧ p.contains g.primaryFinding.id = false := by
  intro l
  induction l with
  | nil => intro p g h; cases h
  | cons x t ih =>
    intro p g hg
    simp only [restPhase] at hg
    split at hg
    · obtain ⟨h1, h2⟩ := ih _ g hg
      exact ⟨List.mem_cons_of_mem _ h1, h2⟩
    · rcases List.mem_cons.mp hg with rfl | h2
      · rename_i hcon
        exact ⟨List.mem_cons_self _ _, by simpa using hcon⟩
      · obtain ⟨h1, h3⟩ := ih _ g h2
        refine ⟨List.mem_cons_of_mem _ h1, ?_⟩
        rw [← Bool.not_eq_true] at h3 ⊢
        intro hcon
        exact h3 ((contains_iff _ _).mpr
          (List.mem_append.mpr (Or.inl ((contains_iff _ _).mp hcon))))

/-- The standalone-hint loop emits a group for every unprocessed hint at
or above the minimum-evidence floor (distinct ids assumed). -/
theorem hintPhase_emit :
    ∀ (l : List Finding) (p : List String) (f : Finding),
      f ∈ l → p.contains f.id = false → (l.map (fun x => x.id)).Nodup →
      qlt (qmul (baseWeightForRole .hint) f.confidence)
          getScoringConfig.thresholds.minGroup = false →
      ∃ g ∈ (hintPhase l p).1, g.primaryFinding = f ∧ g.relatedFindings = [] ∧
        g.riskBoost = 0 := by
  intro l
  induction l with
  | nil => intro p f h; cases h
  | cons x t ih =>
    intro p f hf hp hnd hfloor
    simp only [List.map_cons, List.nodup_cons] at hnd
    rcases List.mem_cons.mp hf with rfl | hft
    · simp only [hintPhase]
      rw [if_neg (by rw [hp]; simp), if_neg (by rw [hfloor]; simp)]
      exact ⟨_, List.mem_cons_self _ _, rfl, rfl, rfl⟩
    · have hne : f.id ≠ x.id := by
        intro heq
        exact hnd.1 (heq ▸ List.mem_map_of_mem _ hft)
      have hpx : (p ++ [x.id]).contains f.id = false := by
        rw [← Bool.not_eq_true]
        intro hcon
        rcases List.mem_append.mp ((contains_iff _ _).mp hcon) with h3 | h3
        · rw [(contains_iff _ _).mpr h3] at hp
          cases hp
        · exact hne (List.mem_singleton.mp h3)
      simp only [hintPhase]
      split
      · exact ih _ f hft hp hnd.2 hfloor
      · split
        · exact ih _ f hft hpx hnd.2 hfloor
        · obtain ⟨g, hg, hprops⟩ := ih (p ++ [x.id]) f hft hpx hnd.2 hfloor
          exact ⟨g, List.mem_cons_of_mem _ hg, hprops⟩

/-- Every group the standalone-hint loop emits has a hint primary that
passed the minimum-evidence floor. -/
theorem hintPhase_prim :
    ∀ (l : List Finding) (p : List String) (g : FindingGroup),
      g ∈ (hintPhase l p).1 →
      ∃ h ∈ l, g.primaryFinding = h ∧
        qlt (qmul (baseWeightForRole .hint) h.confidence)
          getScoringConfig.thresholds.minGroup = false := by
  intro l
  induction l with
  | nil => intro p g h; cases h
  | cons x t ih =>
    intro p g hg
    simp only [hintPhase] at hg
    split at hg
    · obtain ⟨h, hh, hprops⟩ := ih _ g hg
      exact ⟨h, List.mem_cons_of_mem _ hh, hprops⟩
    · split at hg
      · obtain ⟨h, hh, hprops⟩ := ih _ g hg
        exact ⟨h, List.mem_cons_of_mem _ hh, hprops⟩
      · rcases List.mem_cons.mp hg with rfl | h2
        · rename_i hfloor
          exact ⟨x, List.mem_cons_self _ _, rfl, by simpa using hfloor⟩
        · obtain ⟨h, hh, hprops⟩ := ih _ g h2
          exact ⟨h, List.mem_cons_of_mem _ hh, hprops⟩

/-- The standalone-metadata loop emits a group for every unprocessed
metadata finding, with no score comparison at all (distinct ids assumed). -/
theorem metaPhase_emit :
    ∀ (l : List Finding) (p : List String) (f : Finding),
      f ∈ l → p.contains f.id = false → (l.map (fun x => x.id)).Nodup →
      ∃ g ∈ (metaPhase l p).1, g.primaryFinding = f ∧ g.relatedFindings = [] ∧
        g.riskBoost = 0 := by
  intro l
  induction l with
  | nil => intro p f h; cases h
  | cons x t ih =>
    intro p f hf hp hnd
    simp only [List.map_cons, List.nodup_cons] at hnd
    rcases List.mem_cons.mp hf with rfl | hft
    · simp only [metaPhase]
      rw [if_neg (by rw [hp]; simp)]
      exact ⟨_, List.mem_cons_self _ _, rfl, rfl, rfl⟩
    · have hne : f.id ≠ x.id := by
        intro heq
        exact hnd.1 (heq ▸ List.mem_map_of_mem _ hft)
      have hpx : (p ++ [x.id]).contains f.id = false := by
        rw [← Bool.not_eq_true]
        intro hcon
        rcases List.mem_append.mp ((contains_iff _ _).mp hcon) with h3 | h3
        · rw [(contains_iff _ _).mpr h3] at hp
          cases hp
        · exact hne (List.mem_singleton.mp h3)
      simp only [metaPhase]
      split
      · exact ih _ f hft hp hnd.2
      · obtain ⟨g, hg, hprops⟩ := ih (p ++ [x.id]) f hft hpx hnd.2
        exact ⟨g, List.mem_cons_of_mem _ hg, hprops⟩

theorem metaPhase_prim :
    ∀ (l : List Finding) (p : List String) (g : FindingGroup),
      g ∈ (metaPhase l p).1 → g.primaryFinding ∈ l := by
  intro l
  induction l with
  | nil => intro p g h; cases h
  | cons x t ih =>
    intro p g hg
    simp only [metaPhase] at hg
    split at hg
    · exact List.mem_cons_of_mem _ (ih _ g hg)
    · rcases List.mem_cons.mp hg with rfl | h2
      · exact List.mem_cons_self _ _
      · exact List.mem_cons_of_mem _ (ih _ g h2)

/-- **C9**: a finding whose rule id has no taxonomy entry is assigned the
default role `usage` and always surfaces as the primary of its own group
in `groupFindings` (for well-formed inputs: pairwise-distinct finding ids
and deduplication keys). -/
theorem unknown_rule_surfaces (findings : List Finding) (f : Finding)
    (hf : f ∈ findings) (hrel : ruleRel f.ruleId = none)
    (hkeys : (findings.map dedupKey).Nodup)
    (hids : (findings.map (fun x => x.id)).Nodup) :
    ∃ g ∈ groupFindings findings, g.primaryFinding = f ∧ g.relatedFindings = [] ∧
      g.contributingSignals =
        some [{ ruleId := f.ruleId, weight := baseWeightForRole .usage,
                confidence := f.confidence, role := SignalRole.usage }] := by
  have hded : deduplicateFindings findings = findings :=
    dedupGo_eq_self findings [] (fun f' _ hc => by simp at hc) hkeys
  have hfb : f ∈ findings.filter (fun x => x.file == f.file) :=
    List.mem_filter.mpr ⟨hf, by simp⟩
  have hbids :
      ((findings.filter (fun x => x.file == f.file)).map (fun x => x.id)).Nodup :=
    List.Nodup.sublist ((List.filter_sublist findings).map _) hids
  have hnotmp :
      (metaPhase
        ((findings.filter (fun x => x.file == f.file)).filter (fun x => roleIs x .metadata))
        (hintPhase
          ((findings.filter (fun x => x.file == f.file)).filter (fun x => roleIs x .hint))
          (usagePhase f.file (findings.filter (fun x => x.file == f.file))).2).2).2.contains
        f.id = false := by
    rw [← Bool.not_eq_true]
    intro hcon
    have hmem := (contains_iff _ _).mp hcon
    rcases metaPhase_ids _ _ _ hmem with h2 | ⟨f', hf', hid⟩
    · rcases hintPhase_ids _ _ _ h2 with h3 | ⟨f', hf', hid⟩
      · obtain ⟨f', hf'mem, hid, hentry⟩ := usagePhase_ids f.file _ f.id h3
        have heq : f' = f := List.inj_on_of_nodup_map hbids hf'mem hfb hid
        exact hentry (heq ▸ hrel)
      · have heq : f' = f :=
          List.inj_on_of_nodup_map hbids (List.mem_of_mem_filter hf') hfb hid
        have : roleIs f' SignalRole.hint = true := by simpa using List.of_mem_filter hf'
        exact roleIs_entry this (heq ▸ hrel)
    · have heq : f' = f :=
        List.inj_on_of_nodup_map hbids (List.mem_of_mem_filter hf') hfb hid
      have : roleIs f' SignalRole.metadata = true := by simpa using List.of_mem_filter hf'
      exact roleIs_entry this (heq ▸ hrel)
  obtain ⟨g0, hg0, hprim, hrel0, hrb, hcs, hcg⟩ :=
    restPhase_emit (findings.filter (fun x => x.file == f.file)) _ f hfb hnotmp hbids
  have hg0' : g0 ∈ groupFileFindings f.file (findings.filter (fun x => x.file == f.file)) := by
    simp only [groupFileFindings]
    exact List.mem_append.mpr (Or.inr hg0)
  have hfile : f.file ∈ distinctStrs (findings.map (fun x => x.file)) :=
    mem_dsGo _ [] _ (List.mem_map_of_mem _ hf) (by simp)
  refine ⟨scorePhase g0, ?_, ?_, ?_, ?_⟩
  · simp only [groupFindings, hded]
    exact List.mem_map_of_mem _ (List.mem_flatMap.mpr ⟨f.file, hfile, hg0'⟩)
  · exact hprim
  · exact hrel0
  · have hsig : (scorePhase g0).contributingSignals =
        some (signalFor g0.primaryFinding (roleOf g0.primaryFinding.ruleId .usage) ::
          (g0.relatedFindings.take getRelatedCap).map
            (fun x => signalFor x (roleOf x.ruleId .hint))) := rfl
    rw [hsig, hprim, hrel0]
    simp [roleOf, hrel, signalFor]

set_option maxRecDepth 40000 in
theorem unknown_rule_surfaces_witness :
    ∃ g ∈ groupFindings [w9Unknown], g.primaryFinding = w9Unknown ∧ g.relatedFindings = [] ∧
      g.contributingSignals =
        some [{ ruleId := w9Unknown.ruleId, weight := baseWeightForRole .usage,
                confidence := w9Unknown.confidence, role := SignalRole.usage }] :=
  unknown_rule_surfaces [w9Unknown] w9Unknown (by decide) (by decide) (by decide) (by decide)

/-- **C4**: the minimum-evidence floor for standalone hints — a hint
finding not pulled into any usage group is suppressed entirely (it is the
primary of no group) exactly when `weight(hint)×confidence` falls
strictly below `thresholds.minGroup`; otherwise it yields its own group
with an empty related list (well-formed input: distinct finding ids). -/
theorem hint_floor (file : String) (findings : List Finding) (f : Finding)
    (hf : f ∈ findings) (hrole : roleIs f .hint = true)
    (hids : (findings.map (fun x => x.id)).Nodup)
    (hnp : (usagePhase file findings).2.contains f.id = false) :
    (qlt (qmul (baseWeightForRole .hint) f.confidence)
        getScoringConfig.thresholds.minGroup = true →
      ∀ g ∈ groupFileFindings file findings, g.primaryFinding.id ≠ f.id) ∧
    (qlt (qmul (baseWeightForRole .hint) f.confidence)
        getScoringConfig.thresholds.minGroup = false →
      ∃ g ∈ groupFileFindings file findings, g.primaryFinding = f ∧
        g.relatedFindings = [] ∧ g.riskBoost = 0) := by
  have hfh : f ∈ findings.filter (fun x => roleIs x .hint) :=
    List.mem_filter.mpr ⟨hf, hrole⟩
  have hhids : ((findings.filter (fun x => roleIs x .hint)).map (fun x => x.id)).Nodup :=
    List.Nodup.sublist ((List.filter_sublist findings).map _) hids
  constructor
  · intro hfloor g hg hgid
    simp only [groupFileFindings] at hg
    rcases List.mem_append.mp hg with hg3 | hgrest
    · rcases List.mem_append.mp hg3 with hg2 | hgmeta
      · rcases List.mem_append.mp hg2 with hgusage | hghint
        · simp only [usagePhase] at hgusage
          rcases fold_usage_mem _ _ _ _ hgusage with h0 | ⟨r, -, ids, hx⟩
          · cases h0
          · have hprim := usageGroupFor_prim hx
            have hpu : g.primaryFinding ∈ findings.filter (fun x => roleIs x .usage) :=
              List.mem_of_mem_filter hprim
            have hroleu : roleIs g.primaryFinding .usage = true := by
              simpa using List.of_mem_filter hpu
            have heqf : g.primaryFinding = f :=
              List.inj_on_of_nodup_map hids (List.mem_of_mem_filter hpu) hf hgid
            rw [heqf] at hroleu
            cases roleIs_unique hroleu hrole
        · obtain ⟨h, hh, hpeq, hhfloor⟩ := hintPhase_prim _ _ _ hghint
          rw [hpeq] at hgid
          have heqf : h = f :=
            List.inj_on_of_nodup_map hids (List.mem_of_mem_filter hh) hf hgid
          rw [heqf, hfloor] at hhfloor
          cases hhfloor
      · have hmm := metaPhase_prim _ _ _ hgmeta
        have hrolem : roleIs g.primaryFinding .metadata = true := by
          simpa using List.of_mem_filter hmm
        have heqf : g.primaryFinding = f :=
          List.inj_on_of_nodup_map hids (List.mem_of_mem_filter hmm) hf hgid
        rw [heqf] at hrolem
        cases roleIs_unique hrolem hrole
    · obtain ⟨hmemf, hnotproc⟩ := restPhase_prim _ _ _ hgrest
      have hin := metaPhase_superset
        (findings.filter (fun x => roleIs x .metadata)) _ _
        (hintPhase_adds (findings.filter (fun x => roleIs x .hint))
          (usagePhase file findings).2 f hfh)
      rw [← hgid] at hin
      rw [(contains_iff _ _).mpr hin] at hnotproc
      cases hnotproc
  · intro hfloor
    obtain ⟨g, hg, hprops⟩ := hintPhase_emit _ _ f hfh hnp hhids hfloor
    refine ⟨g, ?_, hprops⟩
    simp only [groupFileFindings]
    exact List.mem_append.mpr (Or.inl (List.mem_append.mpr (Or.inl
      (List.mem_append.mpr (Or.inr hg)))))

set_option maxRecDepth 40000 in
theorem hint_floor_witness :
    qlt (qmul (baseWeightForRole .hint) w4Hint.confidence)
        getScoringConfig.thresholds.minGroup = false ∧
    ∃ g ∈ groupFileFindings "a.py" [w4Hint], g.primaryFinding = w4Hint ∧
      g.relatedFindings = [] ∧ g.riskBoost = 0 :=
  ⟨by decide,
    (hint_floor "a.py" [w4Hint] w4Hint (by decide) (by decide) (by decide) (by decide)).2
      (by decide)⟩

/-- **C10**: the minimum-evidence floor applies only to hints — every
standalone metadata finding (role `metadata`, not pulled into any usage
group) always yields a group with it as primary, empty related list and
`riskBoost = 0`, with no comparison against `thresholds.minGroup`
whatsoever (the theorem has no hypothesis on the finding's confidence, and
the witness instantiates it below the floor, `0.30×0.5 = 0.15 < 0.35`). -/
theorem metadata_no_floor (file : String) (findings : List Finding) (f : Finding)
    (hf : f ∈ findings) (hrole : roleIs f .metadata = true)
    (hids : (findings.map (fun x => x.id)).Nodup)
    (hnp : (usagePhase file findings).2.contains f.id = false) :
    ∃ g ∈ groupFileFindings file findings, g.primaryFinding = f ∧
      g.relatedFindings = [] ∧ g.riskBoost = 0 := by
  have hfm : f ∈ findings.filter (fun x => roleIs x .metadata) :=
    List.mem_filter.mpr ⟨hf, hrole⟩
  have hmids : ((findings.filter (fun x => roleIs x .metadata)).map (fun x => x.id)).Nodup :=
    List.Nodup.sublist ((List.filter_sublist findings).map _) hids
  have hnothp :
      (hintPhase (findings.filter (fun x => roleIs x .hint))
        (usagePhase file findings).2).2.contains f.id = false := by
    rw [← Bool.not_eq_true]
    intro hcon
    rcases hintPhase_ids _ _ _ ((contains_iff _ _).mp hcon) with h2 | ⟨f', hf', hid⟩
    · rw [(contains_iff _ _).mpr h2] at hnp
      cases hnp
    · have heqf : f' = f :=
        List.inj_on_of_nodup_map hids (List.mem_of_mem_filter hf') hf hid
      have hrh : roleIs f' SignalRole.hint = true := by simpa using List.of_mem_filter hf'
      rw [heqf] at hrh
      cases roleIs_unique hrh hrole
  obtain ⟨g, hg, hprops⟩ := metaPhase_emit _ _ f hfm hnothp hmids
  refine ⟨g, ?_, hprops⟩
  simp only [groupFileFindings]
  exact List.mem_append.mpr (Or.inl (List.mem_append.mpr (Or.inr hg)))

set_option maxRecDepth 40000 in
theorem metadata_no_floor_witness :
    qlt (qmul (baseWeightForRole .metadata) w10Meta.confidence)
        getScoringConfig.thresholds.minGroup = true ∧
    ∃ g ∈ groupFileFindings "c.py" [w10Meta], g.primaryFinding = w10Meta ∧
      g.relatedFindings = [] ∧ g.riskBoost = 0 :=
  ⟨by decide,
    metadata_no_floor "c.py" [w10Meta] w10Meta (by decide) (by decide) (by decide) (by decide)⟩
